import Mathlib

/-!
Verification of the wad-gfx graphics decoding/encoding library.

Shallow embedding conventions:
* byte buffers are `List Nat` whose elements are byte values (0..255);
* Rust panics (failed `assert!`, out-of-range indexing, `expect`) are
  modelled by `Option`-valued functions returning `none`;
* `Rational32` arithmetic is modelled by `ℚ`, with `to_integer`
  (truncation towards zero) modelled by `ratToInt`;
* machine-integer casts (`as u8`, `as u16`, `as u32`) are modelled by
  explicit `% 2^w` reductions.
-/

/-- Little-endian 16-bit encoding of a value, as two bytes
(`byteorder::WriteBytesExt::write_u16::<LittleEndian>`). -/
def u16le (n : Nat) : List Nat := [n % 256, n / 256 % 256]

/-- Little-endian 32-bit encoding of a value, as four bytes
(`byteorder::WriteBytesExt::write_u32::<LittleEndian>`). -/
def u32le (n : Nat) : List Nat :=
  [n % 256, n / 256 % 256, n / 65536 % 256, n / 16777216 % 256]

/-- `LittleEndian::read_u16` on a byte buffer at offset `i`. -/
def readU16 (data : List Nat) (i : Nat) : Nat :=
  data.getD i 0 + 256 * data.getD (i + 1) 0

/-- `LittleEndian::read_u32` on a byte buffer at offset `i`. -/
def readU32 (data : List Nat) (i : Nat) : Nat :=
  data.getD i 0 + 256 * data.getD (i + 1) 0 + 65536 * data.getD (i + 2) 0 +
    16777216 * data.getD (i + 3) 0

/-- Interpretation of a 16-bit value as a signed `i16`
(`LittleEndian::read_i16`). -/
def asI16 (n : Nat) : Int :=
  if n % 65536 < 32768 then (n % 65536 : Int) else (n % 65536 : Int) - 65536

/-- `LittleEndian::read_i16` on a byte buffer at offset `i`. -/
def readI16 (data : List Nat) (i : Nat) : Int := asI16 (readU16 data i)

/-- `Rational32::to_integer`: truncating division of numerator by
denominator (Rust integer division truncates towards zero). -/
def ratToInt (q : ℚ) : Int := Int.tdiv q.num q.den

/-! ## Tile decoder (`Flat`, src/lib.rs / src/flat.rs) -/
/-- A decoded flat: a non-owning view over a 4096-byte buffer, shaped as a
64×64 row-major grid (`ArrayView2::from_shape((64, 64), pixels)`). -/
structure Flat where
  pixels : List Nat

namespace Flat

/-- `Flat::new`: fails unless the buffer has exactly 64·64 bytes
(`ShapeError` from `from_shape`). -/
def new (pixels : List Nat) : Option Flat :=
  if pixels.length = 4096 then some ⟨pixels⟩ else none

/-- Grid lookup `self.pixels[[y, x]]` of the row-major `(64, 64)` view. -/
def pixel (f : Flat) (y x : Nat) : Nat := f.pixels.getD (y * 64 + x) 0

/-- `Flat::draw_column`: renders output column `col` at vertical scale
`scale`, mapping each output row back to a source row by truncating
rational division. -/
def draw_column (f : Flat) (col : Nat) (scale : ℚ) : List Nat :=
  let scaledHeight := ratToInt ((64 : ℚ) * scale)
  (List.range scaledHeight.toNat).map fun (y : Nat) =>
    f.pixel (ratToInt ((y : ℚ) / scale)).toNat col

end Flat

/-! ## Rational-scaled rasterizer (`do_scale`, src/bin/wad-gfx/main.rs) -/
/-- An in-memory pixel grid (`ArrayView2`), `h` rows by `w` columns. -/
structure Grid where
  h : Nat
  w : Nat
  px : Nat → Nat → Nat

/-- Rendering of a grid as a row-major list of rows. -/
def Grid.toLists (g : Grid) : List (List Nat) :=
  (List.range g.h).map fun y => (List.range g.w).map fun x => g.px y x

/-- Truncating cast of a `usize` value to `i32` (`as i32`): keep the low
32 bits, read two's-complement. -/
def asI32 (n : Nat) : Int :=
  if n % 4294967296 < 2147483648 then (n % 4294967296 : Nat)
  else (n % 4294967296 : Nat) - 4294967296

/-- Cast of an `i32` value to 64-bit `usize` (`as usize`): sign-extend and
reinterpret as unsigned, i.e. reduce modulo `2^64`. -/
def i32AsUsize (v : Int) : Nat := (v % 18446744073709551616).toNat

/-- `do_scale`: nearest-neighbour scaling by integer horizontal factor `sx`
and exact rational vertical factor `sy`.  The output width computation
carries the source's `as u32` truncations
(`(input.dim().1 as u32 * sx) as usize` and `x as u32`), and the output
height and row lookup carry its `as i32` and `as usize` wraps
(`input.dim().0 as i32`, `y as i32`, `to_integer() as usize`,
`src_y as usize`). -/
def do_scale (g : Grid) (sx : Nat) (sy : ℚ) : List (List Nat) :=
  (List.range (i32AsUsize (ratToInt ((asI32 g.h : ℚ) * sy)))).map
    fun (y : Nat) =>
      (List.range (g.w % 4294967296 * sx % 4294967296)).map fun (x : Nat) =>
        g.px (i32AsUsize (ratToInt ((asI32 y : ℚ) / sy)))
          (x % 4294967296 / sx)

/-! ## Texture patch records (`Patch`, src/texture.rs) -/
/-- A parsed 10-byte patch record. -/
structure Patch where
  origin_x : Int
  origin_y : Int
  patch_id : Nat
deriving DecidableEq

/-- `Patch::new`: parses a 10-byte patch record.  The two fixed fields are
checked only by `debug_assert_eq!`, so the check exists only when
`debugAssertions` is true (debug builds); a failing check is a panic,
modelled as `none`. -/
def Patch.new (debugAssertions : Bool) (data : List Nat) : Option Patch :=
  let step_dir := readU16 data 6
  let colormap := readU16 data 8
  if debugAssertions ∧ ¬(step_dir = 1 ∧ colormap = 0) then none
  else some ⟨readI16 data 0, readI16 data 2, readU16 data 4⟩

/-! ## Run finder (`find_spans`, src/sprite_canvas.rs) -/
/-- State-machine form of the `find_spans` scanning loop: `i` is the
current index, the accumulator holds the start index of the run currently
being scanned (`none` while skipping `false` entries). -/
def find_spans_go : List Bool → Nat → Option Nat → List (Nat × Nat)
  | [], _, none => []
  | [], i, some s => [(s, i)]
  | b :: rest, i, none =>
      if b then find_spans_go rest (i + 1) (some i)
      else find_spans_go rest (i + 1) none
  | b :: rest, i, some s =>
      if b then find_spans_go rest (i + 1) (some s)
      else (s, i) :: find_spans_go rest (i + 1) none

/-- `find_spans`: returns the maximal runs of `true` in `buf` as
half-open index ranges, in increasing order. -/
def find_spans (buf : List Bool) : List (Nat × Nat) :=
  find_spans_go buf 0 none

/-- Invariant carried by the `find_spans` scan accumulator at index `i`. -/
def findSpansInv (buf : List Bool) (i : Nat) : Option Nat → Prop
  | none => i = 0 ∨ buf.getD (i - 1) false = false
  | some s =>
      s < i ∧ (∀ j, s ≤ j → j < i → buf.getD j false = true) ∧
        (s = 0 ∨ buf.getD (s - 1) false = false)

/-- Lower bound on starts of spans still to be emitted. -/
def findSpansLB (i : Nat) : Option Nat → Nat
  | none => i
  | some s => s

/-! ## Range tools (src/rangetools.rs) and `for x in a..b` iteration -/
/-- `rangetools::add`: shift a half-open range by `d`. -/
def addR (r : Int × Int) (d : Int) : Int × Int := (r.1 + d, r.2 + d)

/-- `rangetools::intersect`: intersection of two half-open ranges. -/
def intersectR (a b : Int × Int) : Int × Int := (max a.1 b.1, min a.2 b.2)

/-- The list of integers a Rust `for x in lo..hi` loop visits. -/
def rangeList (lo hi : Int) : List Int :=
  (List.range (hi - lo).toNat).map fun (k : Nat) => lo + (k : Int)

/-! ## Sprite data model and the compositing canvas (src/sprite_canvas.rs) -/
/-- A sprite post: a vertical run of pixels starting at row `top`
(src/sprite.rs `Span`). -/
structure Span where
  top : Nat
  pixels : List Nat
deriving DecidableEq

/-- A decoded sprite as consumed by the canvas: header height and origin,
plus the per-column span lists exposed by `Sprite::col`.  The width always
equals the column directory length in the source, so it is derived. -/
structure Sprite where
  height : Nat
  left : Int
  top : Int
  columns : List (List Span)

/-- Sprite width: the length of the column directory. -/
def Sprite.width (S : Sprite) : Nat := S.columns.length

/-- The mutable compositing canvas: a `width`×`height` pixel plane and mask
plane, indexed column-major as `[[x, y]]`. -/
structure SpriteCanvas where
  width : Nat
  height : Nat
  pixels : Nat → Nat → Nat
  mask : Nat → Nat → Bool

namespace SpriteCanvas

/-- `SpriteCanvas::new`: zero-filled pixel plane, all-false mask plane. -/
def new (w h : Nat) : SpriteCanvas := ⟨w, h, fun _ _ => 0, fun _ _ => false⟩

/-- The two assignments in the inner loop of `draw_patch`:
`self.pixels[[x, y]] = v; self.mask[[x, y]] = true;`. -/
def write (c : SpriteCanvas) (x y v : Nat) : SpriteCanvas :=
  { c with
    pixels := fun a b => if a = x ∧ b = y then v else c.pixels a b
    mask := fun a b => if a = x ∧ b = y then true else c.mask a b }

/-- Inner loop of `draw_patch` for one span: the clipped row range, then
one write per surviving row. -/
def drawSpanRows (c : SpriteCanvas) (x yoff : Int) (pix : List Nat) :
    SpriteCanvas :=
  let yr := intersectR (addR (0, pix.length) yoff) (0, c.height)
  (rangeList yr.1 yr.2).foldl
    (fun c y => c.write x.toNat y.toNat (pix.getD (y - yoff).toNat 0)) c

/-- Middle loop of `draw_patch`: all spans of one sprite column. -/
def drawColumn (c : SpriteCanvas) (off2 x : Int) (spans : List Span) :
    SpriteCanvas :=
  spans.foldl (fun c sp => drawSpanRows c x (off2 + sp.top) sp.pixels) c

/-- `SpriteCanvas::draw_patch`: stamp `sprite` with its origin at
`(pos_x, pos_y)`, clipping every write to the canvas. -/
def draw_patch (c : SpriteCanvas) (pos_x pos_y : Int) (S : Sprite) :
    SpriteCanvas :=
  let off1 := pos_x - S.left
  let off2 := pos_y - S.top
  let xr := intersectR (addR (0, S.width) off1) (0, c.width)
  (rangeList xr.1 xr.2).foldl
    (fun c x => drawColumn c off2 x (S.columns.getD (x - off1).toNat [])) c

/-- Variant of the `draw_patch` row write with every indexing operation of
the source bounds-checked; an out-of-range access is a Rust panic,
modelled as `none`. -/
def writeChecked (c : SpriteCanvas) (x y yoff : Int) (pix : List Nat) :
    Option SpriteCanvas :=
  if 0 ≤ y - yoff ∧ (y - yoff).toNat < pix.length ∧ 0 ≤ x ∧
      x.toNat < c.width ∧ 0 ≤ y ∧ y.toNat < c.height then
    some (c.write x.toNat y.toNat (pix.getD (y - yoff).toNat 0))
  else none

/-- Bounds-checked span row loop. -/
def drawSpanRowsChecked (c : SpriteCanvas) (x yoff : Int) (pix : List Nat) :
    Option SpriteCanvas :=
  let yr := intersectR (addR (0, pix.length) yoff) (0, c.height)
  (rangeList yr.1 yr.2).foldlM (fun c y => writeChecked c x y yoff pix) c

/-- Bounds-checked column loop. -/
def drawColumnChecked (c : SpriteCanvas) (off2 x : Int)
    (spans : List Span) : Option SpriteCanvas :=
  spans.foldlM (fun c sp => drawSpanRowsChecked c x (off2 + sp.top) sp.pixels) c

/-- Bounds-checked `draw_patch`, including the `sprite.col(..)` directory
index check. -/
def draw_patchChecked (c : SpriteCanvas) (pos_x pos_y : Int) (S : Sprite) :
    Option SpriteCanvas :=
  let off1 := pos_x - S.left
  let off2 := pos_y - S.top
  let xr := intersectR (addR (0, S.width) off1) (0, c.width)
  (rangeList xr.1 xr.2).foldlM
    (fun c x =>
      if 0 ≤ x - off1 ∧ (x - off1).toNat < S.columns.length then
        drawColumnChecked c off2 x (S.columns.getD (x - off1).toNat [])
      else none) c

/-- The canvas pixel plane in native column-major form
(`into_planes_col_major`). -/
def planesPix (c : SpriteCanvas) : List (List Nat) :=
  (List.range c.width).map fun x => (List.range c.height).map fun y =>
    c.pixels x y

/-- The canvas mask plane in native column-major form. -/
def planesMask (c : SpriteCanvas) : List (List Bool) :=
  (List.range c.width).map fun x => (List.range c.height).map fun y =>
    c.mask x y

/-- Membership of canvas row `b` in the clipped row range of a span of
length `len` placed at vertical offset `yoff` on a canvas `hgt` rows tall. -/
def inSpanRows (hgt : Nat) (yoff : Int) (len : Nat) (b : Nat) : Prop :=
  yoff ≤ (b : Int) ∧ (b : Int) < yoff + len ∧ b < hgt

instance (hgt : Nat) (yoff : Int) (len : Nat) (b : Nat) :
    Decidable (inSpanRows hgt yoff len b) := by
  unfold inSpanRows
  infer_instance

/-- A canvas cell `(a, b)` receives sprite data from `draw_patch` iff its
column lies inside the clipped column range and some span of the
corresponding sprite column covers its row. -/
def patchHit (c : SpriteCanvas) (px py : Int) (S : Sprite) (a b : Nat) :
    Prop :=
  px - S.left ≤ (a : Int) ∧ (a : Int) < px - S.left + S.width ∧
    a < c.width ∧
    ∃ sp ∈ S.columns.getD ((a : Int) - (px - S.left)).toNat [],
      inSpanRows c.height (py - S.top + sp.top) sp.pixels.length b

/-! ## Re-encoding the canvas (`SpriteCanvas::make_sprite`) -/
/-- Mask column `x` of the canvas, the slice `self.mask.slice(s![x, ..])`. -/
def maskCol (c : SpriteCanvas) (x : Nat) : List Bool :=
  (List.range c.height).map fun y => c.mask x y

/-- Pixel slice `self.pixels.slice(s![x, span])` for the span `[s, e)`. -/
def pixSlice (c : SpriteCanvas) (x s e : Nat) : List Nat :=
  (List.range (e - s)).map fun k => c.pixels x (s + k)

/-- Post bytes for the spans of one column: `[start, len, len]`, the pixel
slice, a `0` pad per span, and the final `255` terminator.  The source's
`assert!(span_len <= 128)` is a panic on longer runs, modelled as `none`;
`span.start as u8` and `span_len as u8` truncate. -/
def encodeSpans (c : SpriteCanvas) (x : Nat) :
    List (Nat × Nat) → Option (List Nat)
  | [] => some [255]
  | (s, e) :: rest =>
      let len := e - s
      if len ≤ 128 then
        (encodeSpans c x rest).map fun restB =>
          s % 256 :: len % 256 :: len % 256 :: (pixSlice c x s e ++ 0 :: restB)
      else none

/-- One column's contribution to the post data. -/
def encodeColumn (c : SpriteCanvas) (x : Nat) : Option (List Nat) :=
  encodeSpans c x (find_spans (c.maskCol x))

/-- The `make_sprite` column loop: before encoding column `x` it pushes the
current data length (`data.len() as u32`) into the column array. -/
def msCols (c : SpriteCanvas) :
    List Nat → List Nat → List Nat → Option (List Nat × List Nat)
  | [], colArr, data => some (colArr, data)
  | x :: rest, colArr, data =>
      match encodeColumn c x with
      | none => none
      | some block =>
          msCols c rest (colArr ++ [data.length % 4294967296]) (data ++ block)

/-- `SpriteCanvas::make_sprite`: 8-byte header with origin reset to `(0, 0)`,
column directory of `col + data_start` entries (u32 arithmetic), then the
post data. -/
def make_sprite (c : SpriteCanvas) : Option (List Nat) :=
  match msCols c (List.range c.width) [] [] with
  | none => none
  | some (colArr, data) =>
      let data_start := (8 + 4 * colArr.length) % 4294967296
      some (u16le c.width ++ u16le c.height ++ u16le 0 ++ u16le 0 ++
        (colArr.map fun col =>
          u32le ((col + data_start) % 4294967296)).flatten ++ data)

end SpriteCanvas

/-! ## Byte-level sprite decoding (`Sprite::new`, `Sprite::col`,
`Column::next`, src/sprite.rs) -/
/-- The Rust `Sprite` struct: a parsed header over a borrowed buffer. -/
structure SpriteRaw where
  width : Nat
  height : Nat
  left : Int
  top : Int
  column_array : List Nat
  data_offset : Nat
  data : List Nat
deriving DecidableEq

/-- `Sprite::new`: reads the header and column directory; the two
`assert!`s on the buffer length are modelled as failures. -/
def Sprite.new (bytes : List Nat) : Option SpriteRaw :=
  if 8 ≤ bytes.length then
    let width := readU16 bytes 0
    let caEnd := 8 + 4 * width
    if caEnd ≤ bytes.length then
      some ⟨width, readU16 bytes 2, readI16 bytes 4, readI16 bytes 6,
        (List.range width).map (fun i => readU32 bytes (8 + 4 * i)),
        caEnd, bytes.drop caEnd⟩
    else none
  else none

/-- The `Column` iterator drained to a list, with fuel (each step consumes
at least 4 bytes, so `length + 1` fuel always suffices).  Every indexing
operation of `Column::next` is bounds-checked; an out-of-range access is a
panic, modelled as `none`. -/
def parseColumnF : Nat → List Nat → Option (List Span)
  | 0, _ => none
  | fuel + 1, data =>
      if data.length = 0 then none
      else
        let t := data.getD 0 0
        if t = 255 then some []
        else if data.length < 2 then none
        else
          let cnt := data.getD 1 0
          if data.length < 4 + cnt then none
          else
            match parseColumnF fuel (data.drop (4 + cnt)) with
            | none => none
            | some spans => some (⟨t, (data.drop 3).take cnt⟩ :: spans)

/-- The full, finite iteration of one column's posts. -/
def parseColumn (data : List Nat) : Option (List Span) :=
  parseColumnF (data.length + 1) data

/-- `Sprite::col`: locate the column's byte range from the directory
(offsets are absolute; `data_offset` is subtracted) and iterate its posts.
Directory indexing, the `usize` subtractions and the slice bounds are
checked; violations are panics, modelled as `none`. -/
def SpriteRaw.col (s : SpriteRaw) (i : Nat) : Option (List Span) :=
  if i < s.column_array.length then
    let a := s.column_array.getD i 0
    if s.data_offset ≤ a then
      let start := a - s.data_offset
      let eo : Option Nat :=
        if i + 1 < s.column_array.length then
          let a2 := s.column_array.getD (i + 1) 0
          if s.data_offset ≤ a2 then some (a2 - s.data_offset) else none
        else some s.data.length
      match eo with
      | none => none
      | some e =>
          if start ≤ e ∧ e ≤ s.data.length then
            parseColumn ((s.data.drop start).take (e - start))
          else none
    else none
  else none

/-- Well-formed column data: a sequence of declared posts followed by a
`255` terminator (anything may follow the terminator). -/
inductive WFCol : List Nat → List Span → Prop
  | term (rest : List Nat) : WFCol (255 :: rest) []
  | post (t cnt d d2 : Nat) (pixels rest : List Nat) (spans : List Span) :
      t ≠ 255 → pixels.length = cnt → WFCol rest spans →
      WFCol (t :: cnt :: d :: (pixels ++ d2 :: rest)) (⟨t, pixels⟩ :: spans)

/-- Decode sprite bytes into the abstract sprite consumed by the canvas:
parse the header, then drain every column's post iterator. -/
def decodeSprite (bytes : List Nat) : Option Sprite :=
  match Sprite.new bytes with
  | none => none
  | some s =>
      match (List.range s.width).mapM s.col with
      | none => none
      | some cols => some ⟨s.height, s.left, s.top, cols⟩

/-- Draw a sprite onto a fresh canvas of its own dimensions, placing the
hotspot at its own origin coordinates (as the library's round-trip test
does): the sprite lands without any offset. -/
def drawSelf (S : Sprite) : SpriteCanvas :=
  (SpriteCanvas.new S.width S.height).draw_patch S.left S.top S

/-! ## Textures (`Texture`, `render_texture`, src/texture.rs) -/
/-- The Rust `Texture` struct: name, dimensions and the raw 10-byte patch
records. -/
structure Texture where
  name : List Nat
  width : Nat
  height : Nat
  patch_data : List (List Nat)

/-- `Texture::patch`: parse the `index`-th 10-byte patch record. -/
def Texture.patch (t : Texture) (debugAssertions : Bool) (index : Nat) :
    Option Patch :=
  Patch.new debugAssertions (t.patch_data.getD index [])

/-- The patch loop of `render_texture`: resolve and stamp each patch in
declared order.  An unresolvable `patch_id` is the
`.expect("Missing patches not handled")` panic, modelled as `none`. -/
def renderLoop (debugAssertions : Bool) (t : Texture)
    (patch_provider : Nat → Option Sprite) :
    List Nat → SpriteCanvas → Option SpriteCanvas
  | [], canvas => some canvas
  | p :: rest, canvas =>
      match t.patch debugAssertions p with
      | none => none
      | some patch =>
          match patch_provider patch.patch_id with
          | none => none
          | some sprite =>
              renderLoop debugAssertions t patch_provider rest
                (canvas.draw_patch (patch.origin_x + sprite.left)
                  (patch.origin_y + sprite.top) sprite)

/-- `render_texture`: canvas sized to the texture, every patch stamped at
its record origin offset by the patch sprite's own hotspot, then
re-encoded to sprite bytes. -/
def render_texture (debugAssertions : Bool) (t : Texture)
    (patch_provider : Nat → Option Sprite) : Option (List Nat) :=
  match renderLoop debugAssertions t patch_provider
      (List.range t.patch_data.length)
      (SpriteCanvas.new t.width t.height) with
  | none => none
  | some canvas => canvas.make_sprite

/-! ## C2: tile read-index layout -/
/-- A concrete 4096-byte tile buffer distinguishing the two layouts. -/
def testTileBuf : List Nat := 0 :: 1 :: List.replicate 4094 2

/-! ## C7: unresolved texture patches -/
/-- A minimal one-patch texture (16×16, patch at (0,0), id 0). -/
def testTexture : Texture :=
  ⟨[78, 65, 77, 69, 0, 0, 0, 0], 16, 16, [[0, 0, 0, 0, 0, 0, 1, 0, 0, 0]]⟩

/-! ## Structure of the `make_sprite` output -/
/-- Total length of a list of byte blocks. -/
def sumLens (blocks : List (List Nat)) : Nat :=
  (blocks.map List.length).sum

/-- The column-array entries produced by the `make_sprite` loop: the data
length (`as u32`) at the start of each column's block. -/
def blockOffsets (base : Nat) : List (List Nat) → List Nat
  | [] => []
  | b :: bs => base % 4294967296 :: blockOffsets (base + b.length) bs

/-- The byte sequence produced by `make_sprite` (right-nested form). -/
def spriteOut (c : SpriteCanvas) (blocks : List (List Nat)) : List Nat :=
  u16le c.width ++ (u16le c.height ++ (u16le 0 ++ (u16le 0 ++
    (((blockOffsets 0 blocks).map fun col =>
      u32le ((col + (8 + 4 * blocks.length) % 4294967296) %
        4294967296)).flatten ++ blocks.flatten))))

/-- A concrete 18-byte sprite: 1×1, a single one-post column. -/
def testSpriteBytes : List Nat :=
  [1, 0, 1, 0, 0, 0, 0, 0, 12, 0, 0, 0, 0, 1, 1, 9, 0, 255]

/-- The sprite obtained by decoding the re-encoded canvas of `S`: origin
reset to `(0, 0)`, columns given by the maximal mask runs with their pixel
slices. -/
def roundSprite (S : Sprite) : Sprite :=
  ⟨(drawSelf S).height, 0, 0,
    (List.range (drawSelf S).width).map fun x =>
      (find_spans ((drawSelf S).maskCol x)).map fun r =>
        Span.mk r.1 ((drawSelf S).pixSlice x r.1 r.2)⟩

theorem ratToInt_intCast (n : Int) : ratToInt (n : ℚ) = n := by
  simp [ratToInt, Rat.num_intCast, Rat.den_intCast, Int.tdiv_one]

theorem ratToInt_natCast (n : Nat) : ratToInt (n : ℚ) = n := by
  simpa using ratToInt_intCast (n : Int)

theorem u16le_length (n : Nat) : (u16le n).length = 2 := rfl

theorem u32le_length (n : Nat) : (u32le n).length = 4 := rfl

theorem readU16_u16le_append (n : Nat) (rest : List Nat) :
    readU16 (u16le n ++ rest) 0 = n % 65536 := by
  show n % 256 + 256 * (n / 256 % 256) = n % 65536
  omega

theorem readU32_u32le_append (n : Nat) (rest : List Nat) :
    readU32 (u32le n ++ rest) 0 = n % 4294967296 := by
  show n % 256 + 256 * (n / 256 % 256) + 65536 * (n / 65536 % 256) +
    16777216 * (n / 16777216 % 256) = n % 4294967296
  omega

theorem readU16_append_left (l r : List Nat) (i : Nat) (h : i + 1 < l.length) :
    readU16 (l ++ r) i = readU16 l i := by
  unfold readU16
  rw [List.getD_append _ _ _ _ (by omega), List.getD_append _ _ _ _ h]

theorem readU32_append_left (l r : List Nat) (i : Nat) (h : i + 3 < l.length) :
    readU32 (l ++ r) i = readU32 l i := by
  unfold readU32
  rw [List.getD_append _ _ _ _ (by omega), List.getD_append _ _ _ _ (by omega),
    List.getD_append _ _ _ _ (by omega), List.getD_append _ _ _ _ h]

theorem readU16_append_right (l r : List Nat) (i : Nat) :
    readU16 (l ++ r) (l.length + i) = readU16 r i := by
  unfold readU16
  rw [show l.length + i + 1 = l.length + (i + 1) by omega,
    List.getD_append_right _ _ _ _ (by omega),
    List.getD_append_right _ _ _ _ (by omega)]
  simp

theorem readU32_append_right (l r : List Nat) (i : Nat) :
    readU32 (l ++ r) (l.length + i) = readU32 r i := by
  unfold readU32
  rw [show l.length + i + 1 = l.length + (i + 1) by omega,
    show l.length + i + 2 = l.length + (i + 2) by omega,
    show l.length + i + 3 = l.length + (i + 3) by omega,
    List.getD_append_right _ _ _ _ (by omega),
    List.getD_append_right _ _ _ _ (by omega),
    List.getD_append_right _ _ _ _ (by omega),
    List.getD_append_right _ _ _ _ (by omega)]
  simp

theorem find_spans_go_spec (buf : List Bool) :
    ∀ (l : List Bool) (i : Nat) (acc : Option Nat),
      l = buf.drop i → i ≤ buf.length → findSpansInv buf i acc →
      (∀ p ∈ find_spans_go l i acc,
        findSpansLB i acc ≤ p.1 ∧ p.1 < p.2 ∧ p.2 ≤ buf.length ∧
        (∀ j, p.1 ≤ j → j < p.2 → buf.getD j false = true) ∧
        (p.1 = 0 ∨ buf.getD (p.1 - 1) false = false) ∧
        (p.2 = buf.length ∨ buf.getD p.2 false = false)) ∧
      List.Pairwise (fun a b => a.2 < b.1) (find_spans_go l i acc) ∧
      (∀ j, findSpansLB i acc ≤ j → j < buf.length →
        buf.getD j false = true →
        ∃ p ∈ find_spans_go l i acc, p.1 ≤ j ∧ j < p.2) := by
  intro l
  induction l with
  | nil =>
      intro i acc hl hi hinv
      have hib : i = buf.length := by
        have := congrArg List.length hl
        simp [List.length_drop] at this
        omega
      cases acc with
      | none =>
          refine ⟨by simp [find_spans_go], by simp [find_spans_go], ?_⟩
          intro j hj hjlen
          simp [findSpansLB] at hj
          omega
      | some s =>
          obtain ⟨hsi, htrue, hleft⟩ := hinv
          refine ⟨?_, by simp [find_spans_go], ?_⟩
          · intro p hp
            simp [find_spans_go] at hp
            subst hp
            exact ⟨le_refl _, by omega, by omega,
              fun j h1 h2 => htrue j h1 h2, hleft, Or.inl hib⟩
          · intro j hj hjlen _
            refine ⟨(s, i), by simp [find_spans_go], hj, by omega⟩
  | cons b rest ih =>
      intro i acc hl hi hinv
      have hlen : i < buf.length := by
        have := congrArg List.length hl
        simp [List.length_drop] at this
        omega
      have hb : buf.getD i false = b := by
        have h0 : (buf.drop i).getD 0 false = b := by rw [← hl]; rfl
        rwa [List.getD_eq_getElem?_getD, List.getElem?_drop,
          ← List.getD_eq_getElem?_getD, Nat.add_zero] at h0
      have hrest : rest = buf.drop (i + 1) := by
        have : (buf.drop i).drop 1 = buf.drop (i + 1) := by
          rw [List.drop_drop, Nat.add_comm]
        rw [← this, ← hl]
        rfl
      cases acc with
      | none =>
          by_cases hbv : b
          · -- start of a new run at index i
            subst hbv
            have hinv' : findSpansInv buf (i + 1) (some i) := by
              refine ⟨by omega, ?_, ?_⟩
              · intro j h1 h2
                have : j = i := by omega
                rw [this, hb]
              · cases hinv with
                | inl h => exact Or.inl h
                | inr h => exact Or.inr h
            obtain ⟨hA, hB, hC⟩ := ih (i + 1) (some i) hrest (by omega) hinv'
            have hg : find_spans_go (true :: rest) i none =
                find_spans_go rest (i + 1) (some i) := by
              simp [find_spans_go]
            rw [hg]
            exact ⟨fun p hp => hA p hp, hB, fun j h1 h2 h3 => hC j h1 h2 h3⟩
          · -- keep skipping false entries
            have hbv' : b = false := by simpa using hbv
            subst hbv'
            have hinv' : findSpansInv buf (i + 1) none := by
              right
              simpa using hb
            obtain ⟨hA, hB, hC⟩ := ih (i + 1) none hrest (by omega) hinv'
            have hg : find_spans_go (false :: rest) i none =
                find_spans_go rest (i + 1) none := by
              simp [find_spans_go]
            rw [hg]
            refine ⟨?_, hB, ?_⟩
            · intro p hp
              obtain ⟨h1, h2⟩ := hA p hp
              have h1' : i + 1 ≤ p.1 := h1
              refine ⟨?_, h2⟩
              show i ≤ p.1
              omega
            · intro j h1 h2 h3
              have h1' : i ≤ j := h1
              have : i + 1 ≤ j := by
                rcases Nat.eq_or_lt_of_le h1' with h | h
                · exfalso
                  rw [← h] at h3
                  rw [hb] at h3
                  simp at h3
                · omega
              exact hC j this h2 h3
      | some s =>
          obtain ⟨hsi, htrue, hleft⟩ := hinv
          by_cases hbv : b
          · -- run continues
            subst hbv
            have hinv' : findSpansInv buf (i + 1) (some s) := by
              refine ⟨by omega, ?_, hleft⟩
              intro j h1 h2
              rcases Nat.lt_or_ge j i with h | h
              · exact htrue j h1 h
              · have : j = i := by omega
                rw [this, hb]
            obtain ⟨hA, hB, hC⟩ := ih (i + 1) (some s) hrest (by omega) hinv'
            have hg : find_spans_go (true :: rest) i (some s) =
                find_spans_go rest (i + 1) (some s) := by
              simp [find_spans_go]
            rw [hg]
            exact ⟨fun p hp => hA p hp, hB, fun j h1 h2 h3 => hC j h1 h2 h3⟩
          · -- run ends: emit (s, i)
            have hbv' : b = false := by simpa using hbv
            subst hbv'
            have hfalse : buf.getD i false = false := hb
            have hinv' : findSpansInv buf (i + 1) none := by
              right
              simpa using hfalse
            obtain ⟨hA, hB, hC⟩ := ih (i + 1) none hrest (by omega) hinv'
            have hg : find_spans_go (false :: rest) i (some s) =
                (s, i) :: find_spans_go rest (i + 1) none := by
              simp [find_spans_go]
            rw [hg]
            refine ⟨?_, ?_, ?_⟩
            · intro p hp
              rcases List.mem_cons.mp hp with h | h
              · subst h
                exact ⟨le_refl _, by omega, by omega,
                  fun j h1 h2 => htrue j h1 h2, hleft, Or.inr hfalse⟩
              · obtain ⟨h1, h2⟩ := hA p h
                have h1' : i + 1 ≤ p.1 := h1
                refine ⟨?_, h2⟩
                show s ≤ p.1
                omega
            · refine List.pairwise_cons.mpr ⟨?_, hB⟩
              intro p hp
              have h1' : i + 1 ≤ p.1 := (hA p hp).1
              show i < p.1
              omega
            · intro j h1 h2 h3
              have h1' : s ≤ j := h1
              rcases Nat.lt_or_ge j i with h | h
              · exact ⟨(s, i), List.mem_cons_self _ _, h1', h⟩
              · rcases Nat.eq_or_lt_of_le h with h' | h'
                · exfalso
                  rw [h'] at hfalse
                  rw [h3] at hfalse
                  simp at hfalse
                · obtain ⟨p, hp, hj⟩ :=
                    hC j (show i + 1 ≤ j by omega) h2 h3
                  exact ⟨p, List.mem_cons_of_mem _ hp, hj⟩

/-- Per-span properties of `find_spans`. -/
theorem find_spans_mem (buf : List Bool) :
    ∀ p ∈ find_spans buf,
      p.1 < p.2 ∧ p.2 ≤ buf.length ∧
      (∀ j, p.1 ≤ j → j < p.2 → buf.getD j false = true) ∧
      (p.1 = 0 ∨ buf.getD (p.1 - 1) false = false) ∧
      (p.2 = buf.length ∨ buf.getD p.2 false = false) := by
  intro p hp
  have := (find_spans_go_spec buf buf 0 none (by simp) (by simp)
    (Or.inl rfl)).1 p hp
  exact this.2

/-- The spans returned by `find_spans` are strictly ordered with gaps. -/
theorem find_spans_pairwise (buf : List Bool) :
    List.Pairwise (fun a b => a.2 < b.1) (find_spans buf) :=
  (find_spans_go_spec buf buf 0 none (by simp) (by simp) (Or.inl rfl)).2.1

/-- Every `true` position is covered by some returned span. -/
theorem find_spans_cover (buf : List Bool) :
    ∀ j, j < buf.length → buf.getD j false = true →
      ∃ p ∈ find_spans buf, p.1 ≤ j ∧ j < p.2 := by
  intro j hj ht
  exact (find_spans_go_spec buf buf 0 none (by simp) (by simp)
    (Or.inl rfl)).2.2 j (Nat.zero_le _) hj ht

theorem rangeList_eq_nil (lo hi : Int) (h : hi ≤ lo) : rangeList lo hi = [] := by
  unfold rangeList
  rw [show (hi - lo).toNat = 0 by omega]
  rfl

theorem rangeList_eq_cons (lo hi : Int) (h : lo < hi) :
    rangeList lo hi = lo :: rangeList (lo + 1) hi := by
  unfold rangeList
  rw [show (hi - lo).toNat = ((hi - (lo + 1)).toNat + 1) by omega]
  rw [List.range_succ_eq_map]
  simp only [List.map_cons, List.map_map]
  refine congrArg₂ _ (by omega) ?_
  refine List.map_congr_left fun k _ => ?_
  simp only [Function.comp_apply]
  omega

theorem mem_rangeList (lo hi y : Int) :
    y ∈ rangeList lo hi ↔ lo ≤ y ∧ y < hi := by
  unfold rangeList
  simp only [List.mem_map, List.mem_range]
  constructor
  · rintro ⟨k, hk, rfl⟩
    omega
  · intro ⟨h1, h2⟩
    exact ⟨(y - lo).toNat, by omega, by omega⟩

namespace SpriteCanvas

theorem write_width (c : SpriteCanvas) (x y v : Nat) :
    (c.write x y v).width = c.width := rfl

theorem write_height (c : SpriteCanvas) (x y v : Nat) :
    (c.write x y v).height = c.height := rfl

theorem write_pixels (c : SpriteCanvas) (x y v a b : Nat) :
    (c.write x y v).pixels a b =
      if a = x ∧ b = y then v else c.pixels a b := rfl

theorem write_mask (c : SpriteCanvas) (x y v a b : Nat) :
    (c.write x y v).mask a b =
      if a = x ∧ b = y then true else c.mask a b := rfl

theorem foldl_width {γ : Type} (step : SpriteCanvas → γ → SpriteCanvas)
    (h : ∀ c g, (step c g).width = c.width) :
    ∀ (l : List γ) (c : SpriteCanvas), (l.foldl step c).width = c.width := by
  intro l
  induction l with
  | nil => intro c; rfl
  | cons g rest ih => intro c; rw [List.foldl_cons, ih, h]

theorem foldl_height {γ : Type} (step : SpriteCanvas → γ → SpriteCanvas)
    (h : ∀ c g, (step c g).height = c.height) :
    ∀ (l : List γ) (c : SpriteCanvas), (l.foldl step c).height = c.height := by
  intro l
  induction l with
  | nil => intro c; rfl
  | cons g rest ih => intro c; rw [List.foldl_cons, ih, h]

theorem drawSpanRows_width (c : SpriteCanvas) (x yoff : Int) (pix : List Nat) :
    (c.drawSpanRows x yoff pix).width = c.width := by
  refine foldl_width _ ?_ _ c
  intro c g
  rfl

theorem drawSpanRows_height (c : SpriteCanvas) (x yoff : Int) (pix : List Nat) :
    (c.drawSpanRows x yoff pix).height = c.height := by
  refine foldl_height _ ?_ _ c
  intro c g
  rfl

theorem drawColumn_width (c : SpriteCanvas) (off2 x : Int) (spans : List Span) :
    (c.drawColumn off2 x spans).width = c.width := by
  refine foldl_width _ ?_ _ c
  intro c g
  exact drawSpanRows_width c _ _ _

theorem drawColumn_height (c : SpriteCanvas) (off2 x : Int)
    (spans : List Span) : (c.drawColumn off2 x spans).height = c.height := by
  refine foldl_height _ ?_ _ c
  intro c g
  exact drawSpanRows_height c _ _ _

theorem draw_patch_width (c : SpriteCanvas) (px py : Int) (S : Sprite) :
    (c.draw_patch px py S).width = c.width := by
  refine foldl_width _ ?_ _ c
  intro c g
  exact drawColumn_width c _ _ _

theorem draw_patch_height (c : SpriteCanvas) (px py : Int) (S : Sprite) :
    (c.draw_patch px py S).height = c.height := by
  refine foldl_height _ ?_ _ c
  intro c g
  exact drawColumn_height c _ _ _

theorem rowFold_pixels (x yoff : Int) (pix : List Nat) :
    ∀ (n : Nat) (lo hi : Int), (hi - lo).toNat = n → 0 ≤ lo →
      ∀ (c : SpriteCanvas) (a b : Nat),
      ((rangeList lo hi).foldl
        (fun c y => c.write x.toNat y.toNat (pix.getD (y - yoff).toNat 0))
        c).pixels a b =
      if a = x.toNat ∧ lo ≤ (b : Int) ∧ (b : Int) < hi then
        pix.getD ((b : Int) - yoff).toNat 0
      else c.pixels a b := by
  intro n
  induction n with
  | zero =>
      intro lo hi hn hlo c a b
      rw [rangeList_eq_nil lo hi (by omega), List.foldl_nil]
      rw [if_neg]
      rintro ⟨-, h1, h2⟩
      omega
  | succ n ih =>
      intro lo hi hn hlo c a b
      have hlt : lo < hi := by omega
      rw [rangeList_eq_cons lo hi hlt, List.foldl_cons]
      rw [ih (lo + 1) hi (by omega) (by omega)]
      by_cases hcov : a = x.toNat ∧ lo ≤ (b : Int) ∧ (b : Int) < hi
      · rw [if_pos hcov]
        by_cases hrest : lo + 1 ≤ (b : Int)
        · rw [if_pos ⟨hcov.1, hrest, hcov.2.2⟩]
        · have hb : (b : Int) = lo := by omega
          rw [if_neg (by rintro ⟨-, h, -⟩; omega)]
          rw [write_pixels, if_pos ⟨hcov.1, by omega⟩, hb]
      · rw [if_neg hcov]
        by_cases hrest : a = x.toNat ∧ lo + 1 ≤ (b : Int) ∧ (b : Int) < hi
        · exact absurd ⟨hrest.1, by omega, hrest.2.2⟩ hcov
        · rw [if_neg hrest, write_pixels, if_neg]
          rintro ⟨h1, h2⟩
          exact hcov ⟨h1, by omega, by omega⟩

theorem rowFold_mask (x yoff : Int) (pix : List Nat) :
    ∀ (n : Nat) (lo hi : Int), (hi - lo).toNat = n → 0 ≤ lo →
      ∀ (c : SpriteCanvas) (a b : Nat),
      ((rangeList lo hi).foldl
        (fun c y => c.write x.toNat y.toNat (pix.getD (y - yoff).toNat 0))
        c).mask a b =
      if a = x.toNat ∧ lo ≤ (b : Int) ∧ (b : Int) < hi then true
      else c.mask a b := by
  intro n
  induction n with
  | zero =>
      intro lo hi hn hlo c a b
      rw [rangeList_eq_nil lo hi (by omega), List.foldl_nil]
      rw [if_neg]
      rintro ⟨-, h1, h2⟩
      omega
  | succ n ih =>
      intro lo hi hn hlo c a b
      have hlt : lo < hi := by omega
      rw [rangeList_eq_cons lo hi hlt, List.foldl_cons]
      rw [ih (lo + 1) hi (by omega) (by omega)]
      by_cases hcov : a = x.toNat ∧ lo ≤ (b : Int) ∧ (b : Int) < hi
      · rw [if_pos hcov]
        by_cases hrest : lo + 1 ≤ (b : Int)
        · rw [if_pos ⟨hcov.1, hrest, hcov.2.2⟩]
        · have hb : (b : Int) = lo := by omega
          rw [if_neg (by rintro ⟨-, h, -⟩; omega)]
          rw [write_mask, if_pos ⟨hcov.1, by omega⟩]
      · rw [if_neg hcov]
        by_cases hrest : a = x.toNat ∧ lo + 1 ≤ (b : Int) ∧ (b : Int) < hi
        · exact absurd ⟨hrest.1, by omega, hrest.2.2⟩ hcov
        · rw [if_neg hrest, write_mask, if_neg]
          rintro ⟨h1, h2⟩
          exact hcov ⟨h1, by omega, by omega⟩

theorem drawSpanRows_pixels (c : SpriteCanvas) (x yoff : Int)
    (pix : List Nat) (a b : Nat) :
    (c.drawSpanRows x yoff pix).pixels a b =
      if a = x.toNat ∧ inSpanRows c.height yoff pix.length b then
        pix.getD ((b : Int) - yoff).toNat 0
      else c.pixels a b := by
  unfold drawSpanRows
  rw [rowFold_pixels x yoff pix _ _ _ rfl (by
    show (0 : Int) ≤ max (0 + yoff) 0
    omega)]
  congr 1
  show (a = x.toNat ∧ max (0 + yoff) 0 ≤ (b : Int) ∧
      (b : Int) < min ((pix.length : Int) + yoff) c.height) =
    (a = x.toNat ∧ inSpanRows c.height yoff pix.length b)
  unfold inSpanRows
  refine propext (and_congr_right fun _ => ?_)
  constructor
  · rintro ⟨h1, h2⟩
    exact ⟨by omega, by omega, by omega⟩
  · rintro ⟨h1, h2, h3⟩
    exact ⟨by omega, by omega⟩

theorem drawSpanRows_mask (c : SpriteCanvas) (x yoff : Int)
    (pix : List Nat) (a b : Nat) :
    (c.drawSpanRows x yoff pix).mask a b =
      if a = x.toNat ∧ inSpanRows c.height yoff pix.length b then true
      else c.mask a b := by
  unfold drawSpanRows
  rw [rowFold_mask x yoff pix _ _ _ rfl (by
    show (0 : Int) ≤ max (0 + yoff) 0
    omega)]
  congr 1
  show (a = x.toNat ∧ max (0 + yoff) 0 ≤ (b : Int) ∧
      (b : Int) < min ((pix.length : Int) + yoff) c.height) =
    (a = x.toNat ∧ inSpanRows c.height yoff pix.length b)
  unfold inSpanRows
  refine propext (and_congr_right fun _ => ?_)
  constructor
  · rintro ⟨h1, h2⟩
    exact ⟨by omega, by omega, by omega⟩
  · rintro ⟨h1, h2, h3⟩
    exact ⟨by omega, by omega⟩

end SpriteCanvas

theorem rangeList_append (n : Nat) : ∀ (lo mid hi : Int),
    (mid - lo).toNat = n → lo ≤ mid → mid ≤ hi →
    rangeList lo hi = rangeList lo mid ++ rangeList mid hi := by
  induction n with
  | zero =>
      intro lo mid hi hn h1 h2
      have : mid = lo := by omega
      subst this
      rw [rangeList_eq_nil mid mid (le_refl _), List.nil_append]
  | succ n ih =>
      intro lo mid hi hn h1 h2
      have hlt : lo < mid := by omega
      rw [rangeList_eq_cons lo hi (by omega), rangeList_eq_cons lo mid hlt,
        List.cons_append, ih (lo + 1) mid hi (by omega) (by omega) h2]

namespace SpriteCanvas

theorem drawColumn_cons (c : SpriteCanvas) (off2 x : Int) (sp : Span)
    (rest : List Span) :
    c.drawColumn off2 x (sp :: rest) =
      (c.drawSpanRows x (off2 + sp.top) sp.pixels).drawColumn off2 x rest :=
  rfl

theorem drawColumn_nil (c : SpriteCanvas) (off2 x : Int) :
    c.drawColumn off2 x [] = c := rfl

theorem drawColumn_mask (off2 x : Int) :
    ∀ (spans : List Span) (c : SpriteCanvas) (a b : Nat),
    ((c.drawColumn off2 x spans).mask a b = true ↔
      c.mask a b = true ∨ (a = x.toNat ∧ ∃ sp ∈ spans,
        inSpanRows c.height (off2 + sp.top) sp.pixels.length b)) := by
  intro spans
  induction spans with
  | nil =>
      intro c a b
      rw [drawColumn_nil]
      simp
  | cons sp rest ih =>
      intro c a b
      rw [drawColumn_cons, ih, drawSpanRows_mask, drawSpanRows_height]
      by_cases hc : a = x.toNat ∧
          inSpanRows c.height (off2 + sp.top) sp.pixels.length b
      · rw [if_pos hc]
        simp only [List.mem_cons]
        constructor
        · intro _
          exact Or.inr ⟨hc.1, sp, Or.inl rfl, hc.2⟩
        · intro _
          exact Or.inl trivial
      · rw [if_neg hc]
        simp only [List.mem_cons]
        constructor
        · rintro (h | ⟨h1, sp', hm, h2⟩)
          · exact Or.inl h
          · exact Or.inr ⟨h1, sp', Or.inr hm, h2⟩
        · rintro (h | ⟨h1, sp', hm, h2⟩)
          · exact Or.inl h
          · rcases hm with rfl | hm
            · exact absurd ⟨h1, h2⟩ hc
            · exact Or.inr ⟨h1, sp', hm, h2⟩

theorem drawColumn_pixels_untouched (off2 x : Int) :
    ∀ (spans : List Span) (c : SpriteCanvas) (a b : Nat),
    ¬(a = x.toNat ∧ ∃ sp ∈ spans,
        inSpanRows c.height (off2 + sp.top) sp.pixels.length b) →
    (c.drawColumn off2 x spans).pixels a b = c.pixels a b := by
  intro spans
  induction spans with
  | nil =>
      intro c a b _
      rw [drawColumn_nil]
  | cons sp rest ih =>
      intro c a b h
      rw [drawColumn_cons, ih, drawSpanRows_pixels, if_neg]
      · rintro ⟨h1, h2⟩
        exact h ⟨h1, sp, List.mem_cons_self _ _, h2⟩
      · rw [drawSpanRows_height]
        rintro ⟨h1, sp', hm, h2⟩
        exact h ⟨h1, sp', List.mem_cons_of_mem _ hm, h2⟩

theorem drawColumn_mask_untouched (off2 x : Int) :
    ∀ (spans : List Span) (c : SpriteCanvas) (a b : Nat),
    ¬(a = x.toNat ∧ ∃ sp ∈ spans,
        inSpanRows c.height (off2 + sp.top) sp.pixels.length b) →
    (c.drawColumn off2 x spans).mask a b = c.mask a b := by
  intro spans
  induction spans with
  | nil =>
      intro c a b _
      rw [drawColumn_nil]
  | cons sp rest ih =>
      intro c a b h
      rw [drawColumn_cons, ih, drawSpanRows_mask, if_neg]
      · rintro ⟨h1, h2⟩
        exact h ⟨h1, sp, List.mem_cons_self _ _, h2⟩
      · rw [drawSpanRows_height]
        rintro ⟨h1, sp', hm, h2⟩
        exact h ⟨h1, sp', List.mem_cons_of_mem _ hm, h2⟩

theorem drawColumn_pixels_last (off2 x : Int) (sp : Span) :
    ∀ (l1 l2 : List Span) (c : SpriteCanvas) (a b : Nat),
    a = x.toNat →
    inSpanRows c.height (off2 + sp.top) sp.pixels.length b →
    (∀ sp' ∈ l2,
      ¬inSpanRows c.height (off2 + sp'.top) sp'.pixels.length b) →
    (c.drawColumn off2 x (l1 ++ sp :: l2)).pixels a b =
      sp.pixels.getD ((b : Int) - (off2 + sp.top)).toNat 0 := by
  intro l1
  induction l1 with
  | nil =>
      intro l2 c a b ha hcov hl2
      rw [List.nil_append, drawColumn_cons, drawColumn_pixels_untouched,
        drawSpanRows_pixels, if_pos ⟨ha, hcov⟩]
      rw [drawSpanRows_height]
      rintro ⟨h1, sp', hm, h2⟩
      exact hl2 sp' hm h2
  | cons h1 rest ih =>
      intro l2 c a b ha hcov hl2
      rw [List.cons_append, drawColumn_cons]
      rw [ih _ _ a b ha (by rwa [drawSpanRows_height]) (by
        intro sp' hm
        rw [drawSpanRows_height]
        exact hl2 sp' hm)]

theorem colFold_height (off2 : Int) (cols : Int → List Span)
    (xs : List Int) (c : SpriteCanvas) :
    ((xs.foldl (fun c x => c.drawColumn off2 x (cols x)) c)).height =
      c.height := by
  refine foldl_height _ ?_ _ c
  intro c g
  exact drawColumn_height c _ _ _

theorem colFold_mask (off2 : Int) (cols : Int → List Span) :
    ∀ (xs : List Int) (c : SpriteCanvas) (a b : Nat),
    ((xs.foldl (fun c x => c.drawColumn off2 x (cols x)) c).mask a b = true ↔
      c.mask a b = true ∨ ∃ x ∈ xs, a = x.toNat ∧ ∃ sp ∈ cols x,
        inSpanRows c.height (off2 + sp.top) sp.pixels.length b) := by
  intro xs
  induction xs with
  | nil =>
      intro c a b
      simp
  | cons x0 rest ih =>
      intro c a b
      rw [List.foldl_cons, ih, drawColumn_height, drawColumn_mask]
      simp only [List.mem_cons]
      constructor
      · rintro ((h | h) | ⟨x, hm, h⟩)
        · exact Or.inl h
        · exact Or.inr ⟨x0, Or.inl rfl, h⟩
        · exact Or.inr ⟨x, Or.inr hm, h⟩
      · rintro (h | ⟨x, rfl | hm, h⟩)
        · exact Or.inl (Or.inl h)
        · exact Or.inl (Or.inr h)
        · exact Or.inr ⟨x, hm, h⟩

theorem colFold_pixels_untouched (off2 : Int) (cols : Int → List Span) :
    ∀ (xs : List Int) (c : SpriteCanvas) (a b : Nat),
    (∀ x ∈ xs, ¬(a = x.toNat ∧ ∃ sp ∈ cols x,
      inSpanRows c.height (off2 + sp.top) sp.pixels.length b)) →
    ((xs.foldl (fun c x => c.drawColumn off2 x (cols x)) c).pixels a b =
      c.pixels a b) := by
  intro xs
  induction xs with
  | nil =>
      intro c a b _
      rfl
  | cons x0 rest ih =>
      intro c a b h
      rw [List.foldl_cons, ih, drawColumn_pixels_untouched]
      · exact h x0 (List.mem_cons_self _ _)
      · intro x hm
        rw [drawColumn_height]
        exact h x (List.mem_cons_of_mem _ hm)

theorem colFold_mask_untouched (off2 : Int) (cols : Int → List Span) :
    ∀ (xs : List Int) (c : SpriteCanvas) (a b : Nat),
    (∀ x ∈ xs, ¬(a = x.toNat ∧ ∃ sp ∈ cols x,
      inSpanRows c.height (off2 + sp.top) sp.pixels.length b)) →
    ((xs.foldl (fun c x => c.drawColumn off2 x (cols x)) c).mask a b =
      c.mask a b) := by
  intro xs
  induction xs with
  | nil =>
      intro c a b _
      rfl
  | cons x0 rest ih =>
      intro c a b h
      rw [List.foldl_cons, ih, drawColumn_mask_untouched]
      · exact h x0 (List.mem_cons_self _ _)
      · intro x hm
        rw [drawColumn_height]
        exact h x (List.mem_cons_of_mem _ hm)

/-- Unfolded form of `draw_patch` as a fold over the clipped column range. -/
theorem draw_patch_eq_fold (c : SpriteCanvas) (px py : Int) (S : Sprite) :
    c.draw_patch px py S =
      (rangeList (max (0 + (px - S.left)) 0)
        (min ((S.width : Int) + (px - S.left)) (c.width : Int))).foldl
        (fun c x =>
          c.drawColumn (py - S.top) x
            (S.columns.getD ((x - (px - S.left)).toNat) [])) c := rfl

theorem exists_mem_rangeList_toNat (lo hi : Int) (a : Nat) (Q : Int → Prop)
    (hlo : 0 ≤ lo) :
    (∃ x ∈ rangeList lo hi, a = x.toNat ∧ Q x) ↔
      (lo ≤ (a : Int) ∧ (a : Int) < hi ∧ Q (a : Int)) := by
  constructor
  · rintro ⟨x, hm, rfl, hq⟩
    rw [mem_rangeList] at hm
    have hx : (x.toNat : Int) = x := by omega
    rw [hx]
    exact ⟨by omega, by omega, hq⟩
  · rintro ⟨h1, h2, hq⟩
    exact ⟨(a : Int), (mem_rangeList _ _ _).mpr ⟨h1, h2⟩, by omega, hq⟩

theorem draw_patch_mask_iff (c : SpriteCanvas) (px py : Int) (S : Sprite)
    (a b : Nat) :
    ((c.draw_patch px py S).mask a b = true ↔
      c.mask a b = true ∨ patchHit c px py S a b) := by
  rw [draw_patch_eq_fold, colFold_mask]
  refine or_congr Iff.rfl ?_
  rw [exists_mem_rangeList_toNat _ _ _ _ (by omega)]
  unfold patchHit
  constructor
  · rintro ⟨h1, h2, h3⟩
    exact ⟨by omega, by omega, by omega, h3⟩
  · rintro ⟨h1, h2, h3, h4⟩
    exact ⟨by omega, by omega, h4⟩

theorem draw_patch_pixels_untouched (c : SpriteCanvas) (px py : Int)
    (S : Sprite) (a b : Nat) (h : ¬patchHit c px py S a b) :
    (c.draw_patch px py S).pixels a b = c.pixels a b := by
  rw [draw_patch_eq_fold]
  refine colFold_pixels_untouched _ _ _ _ _ _ ?_
  intro x hm
  rw [mem_rangeList] at hm
  rintro ⟨rfl, hsp⟩
  refine h ?_
  unfold patchHit
  have hx : ((x.toNat : Nat) : Int) = x := by omega
  rw [hx]
  exact ⟨by omega, by omega, by omega, hsp⟩

theorem draw_patch_pixels_last (c : SpriteCanvas) (px py : Int) (S : Sprite)
    (a b : Nat) (sp : Span) (l1 l2 : List Span)
    (h1 : px - S.left ≤ (a : Int))
    (h2 : (a : Int) < px - S.left + S.width)
    (h3 : a < c.width)
    (hcols : S.columns.getD ((a : Int) - (px - S.left)).toNat [] =
      l1 ++ sp :: l2)
    (hcov : inSpanRows c.height (py - S.top + sp.top) sp.pixels.length b)
    (hl2 : ∀ sp' ∈ l2,
      ¬inSpanRows c.height (py - S.top + sp'.top) sp'.pixels.length b) :
    (c.draw_patch px py S).pixels a b =
      sp.pixels.getD ((b : Int) - (py - S.top + sp.top)).toNat 0 := by
  rw [draw_patch_eq_fold]
  have hsplit : rangeList (max (0 + (px - S.left)) 0)
      (min ((S.width : Int) + (px - S.left)) (c.width : Int)) =
      (rangeList (max (0 + (px - S.left)) 0) (a : Int) ++
        (a : Int) :: rangeList ((a : Int) + 1)
          (min ((S.width : Int) + (px - S.left)) (c.width : Int))) := by
    rw [rangeList_append ((a : Int) - max (0 + (px - S.left)) 0).toNat
      _ (a : Int) _ rfl (by omega) (by omega)]
    rw [rangeList_eq_cons (a : Int) _ (by omega)]
  rw [hsplit, List.foldl_append, List.foldl_cons]
  rw [colFold_pixels_untouched]
  · rw [hcols]
    refine drawColumn_pixels_last _ _ sp l1 l2 _ a b (by omega) ?_ ?_
    · rwa [colFold_height]
    · intro sp' hm
      rw [colFold_height]
      exact hl2 sp' hm
  · intro x hm
    rw [mem_rangeList] at hm
    rintro ⟨rfl, -⟩
    omega

end SpriteCanvas

theorem parseColumnF_wf : ∀ (fuel : Nat) (data : List Nat)
    (spans : List Span), WFCol data spans → data.length < fuel →
    parseColumnF fuel data = some spans := by
  intro fuel
  induction fuel with
  | zero =>
      intro data spans _ h
      omega
  | succ f ih =>
      intro data spans hwf hlen
      cases hwf with
      | term rest =>
          rfl
      | post t cnt d d2 pixels rest spans ht hpix hrest =>
          have hdlen : (t :: cnt :: d :: (pixels ++ d2 :: rest)).length =
              4 + cnt + rest.length := by
            simp [List.length_append, hpix]
            omega
          show parseColumnF (f + 1) _ = _
          unfold parseColumnF
          rw [if_neg (by rw [hdlen]; omega)]
          simp only [List.getD_cons_zero, List.getD_cons_succ]
          rw [if_neg ht, if_neg (by rw [hdlen]; omega),
            if_neg (by rw [hdlen]; omega)]
          have hdrop : (t :: cnt :: d :: (pixels ++ d2 :: rest)).drop
              (4 + cnt) = rest := by
            rw [show 4 + cnt = cnt + 1 + 1 + 1 + 1 by omega]
            rw [List.drop_succ_cons, List.drop_succ_cons,
              List.drop_succ_cons]
            rw [← hpix, List.drop_append]
            rfl
          have htake : ((t :: cnt :: d :: (pixels ++ d2 :: rest)).drop
              3).take cnt = pixels := by
            rw [List.drop_succ_cons, List.drop_succ_cons,
              List.drop_succ_cons, List.drop_zero, ← hpix, List.take_left]
          rw [hdrop, htake,
            ih rest spans hrest (by rw [hdlen] at hlen; omega)]

/-! ## Helper lemmas -/
theorem getD_map_range {α : Type} (n y : Nat) (g : Nat → α) (d : α)
    (h : y < n) : ((List.range n).map g).getD y d = g y := by
  rw [List.getD_eq_getElem?_getD, List.getElem?_map, List.getElem?_range h]
  rfl

/-! ## C9: scaling by 1 and 1/1 is the identity -/
theorem asI32_of_lt (n : Nat) (h : n < 2147483648) : asI32 n = n := by
  rw [asI32, Nat.mod_eq_of_lt (by omega), if_pos h]

theorem i32AsUsize_natCast (n : Nat) (h : n < 18446744073709551616) :
    i32AsUsize (n : Int) = n := by
  rw [i32AsUsize, Int.emod_eq_of_lt (by omega) (by exact_mod_cast h)]
  exact Int.toNat_natCast n

/-- C9: `do_scale` with horizontal factor 1 and vertical factor 1/1
returns a grid of the same dimensions with every pixel unchanged (the
`as u32` width cast and the `as i32`/`as usize` height casts are the
identity for any machine-representable grid: width in u32, height in
i32). -/
theorem do_scale_identity (g : Grid) (hw : g.w < 4294967296)
    (hh : g.h < 2147483648) :
    do_scale g 1 (1 : ℚ) = g.toLists := by
  unfold do_scale Grid.toLists
  rw [asI32_of_lt g.h hh]
  simp only [mul_one, div_one, Nat.div_one, Nat.mod_eq_of_lt hw]
  rw [ratToInt_intCast, i32AsUsize_natCast g.h (by omega)]
  refine List.map_congr_left fun y hy => ?_
  have hyh : y < g.h := List.mem_range.mp hy
  refine List.map_congr_left fun x hx => ?_
  have hxw : x < g.w := List.mem_range.mp hx
  rw [asI32_of_lt y (by omega), ratToInt_intCast,
    i32AsUsize_natCast y (by omega),
    Nat.mod_eq_of_lt (show x < 4294967296 by omega)]

/-- Witness for C9 at a concrete 2×3 grid. -/
theorem do_scale_identity_witness :
    (Grid.mk 2 3 fun y x => y * 10 + x).w < 4294967296 ∧
      (Grid.mk 2 3 fun y x => y * 10 + x).h < 2147483648 ∧
      do_scale (Grid.mk 2 3 fun y x => y * 10 + x) 1 (1 : ℚ) =
        (Grid.mk 2 3 fun y x => y * 10 + x).toLists :=
  ⟨by norm_num, by norm_num,
    do_scale_identity (Grid.mk 2 3 fun y x => y * 10 + x)
      (by norm_num) (by norm_num)⟩

theorem testTileBuf_new : Flat.new testTileBuf = some ⟨testTileBuf⟩ := by
  rw [Flat.new, if_pos]
  rw [testTileBuf]
  simp only [List.length_cons, List.length_replicate]

theorem flat_draw_column_one (buf : List Nat) (x : Nat) :
    Flat.draw_column ⟨buf⟩ x 1 =
      (List.range 64).map fun (y : Nat) => Flat.pixel ⟨buf⟩ y x := by
  rw [show Flat.draw_column ⟨buf⟩ x 1 =
      (List.range (ratToInt ((64 : ℚ) * 1)).toNat).map
        (fun (y : Nat) => Flat.pixel ⟨buf⟩
          (ratToInt ((y : ℚ) / 1)).toNat x) from rfl]
  rw [show ratToInt ((64 : ℚ) * 1) = (64 : Int) by
    rw [mul_one]
    exact ratToInt_intCast 64]
  refine List.map_congr_left fun y _ => ?_
  rw [div_one, ratToInt_natCast, Int.toNat_natCast]

/-- C2 (counterexample): the decoded tile pixel at read index `y·64+x`
does not equal the on-disk byte at offset `x·64+y`: at `(y, x) = (0, 1)`
the decoded pixel is byte 1 of the buffer, not byte 64. -/
theorem flat_colMajor_counterexample :
    ¬(∀ (buf : List Nat) (f : Flat), Flat.new buf = some f →
      ∀ y x : Nat, y < 64 → x < 64 →
        (f.draw_column x 1).getD y 0 = buf.getD (x * 64 + y) 0) := by
  intro h
  have h1 := h testTileBuf ⟨testTileBuf⟩ testTileBuf_new 0 1
    (by omega) (by omega)
  rw [flat_draw_column_one, getD_map_range _ _ _ _ (by omega)] at h1
  rw [show Flat.pixel ⟨testTileBuf⟩ 0 1 = testTileBuf.getD 1 0 from rfl]
    at h1
  rw [show testTileBuf.getD 1 0 = 1 by rw [testTileBuf]; rfl] at h1
  rw [show testTileBuf.getD (1 * 64 + 0) 0 = 2 by
    rw [testTileBuf, show (1 * 64 + 0) = 64 by norm_num,
      List.getD_cons_succ, List.getD_cons_succ,
      List.getD_eq_getElem?_getD, List.getElem?_replicate]
    norm_num] at h1
  omega

/-- C2 (amended): the tile is row-major on disk: the decoded pixel at read
index `y·64+x` equals the on-disk byte at the same offset `y·64+x`. -/
theorem flat_readIndex_rowMajor (buf : List Nat) (f : Flat)
    (hnew : Flat.new buf = some f) (y x : Nat) (hy : y < 64) (hx : x < 64) :
    (f.draw_column x 1).getD y 0 = buf.getD (y * 64 + x) 0 := by
  have hf : f = ⟨buf⟩ := by
    rw [Flat.new] at hnew
    by_cases h : buf.length = 4096
    · rw [if_pos h] at hnew
      exact (Option.some_inj.mp hnew).symm
    · rw [if_neg h] at hnew
      exact absurd hnew (by simp)
  subst hf
  rw [flat_draw_column_one, getD_map_range _ _ _ _ (by omega)]
  rfl

/-- Witness for the amended C2 at concrete input. -/
theorem flat_readIndex_rowMajor_witness :
    Flat.new testTileBuf = some ⟨testTileBuf⟩ ∧
      ((⟨testTileBuf⟩ : Flat).draw_column 1 1).getD 0 0 =
        testTileBuf.getD (0 * 64 + 1) 0 :=
  ⟨testTileBuf_new, flat_readIndex_rowMajor testTileBuf ⟨testTileBuf⟩
    testTileBuf_new 0 1 (by omega) (by omega)⟩

/-! ## C8: non-default patch-record fields -/
/-- C8 (code evaluation at the failing input): a patch record with step
direction 2 is accepted silently in a release build (`debug_assert_eq!`
compiled out) and panics — rather than returning an error — in a debug
build. -/
theorem patch_new_nondefault_fields :
    Patch.new false [0, 0, 0, 0, 0, 0, 2, 0, 0, 0] =
      some ⟨0, 0, 0⟩ ∧
      Patch.new true [0, 0, 0, 0, 0, 0, 2, 0, 0, 0] = none := by
  constructor
  · rfl
  · rfl

/-! ## C3: over-long runs in `make_sprite` -/
/-- C3 (code evaluation at the failing input): a 1×129 canvas whose single
mask column is a 129-long run of `true` makes `make_sprite` hit the
`assert!(span_len <= 128)` panic (modelled as `none`) instead of
returning an error value. -/
theorem make_sprite_long_run :
    SpriteCanvas.make_sprite ⟨1, 129, fun _ _ => 0, fun _ _ => true⟩ =
      none := by decide

/-- C7 (code evaluation at the failing input): when the patch-resolution
capability has no sprite for the patch id, `render_texture` dies on the
`.expect("Missing patches not handled")` panic (modelled as `none`) in
both build configurations, instead of returning an explicit error value. -/
theorem render_texture_missing_patch :
    render_texture false testTexture (fun _ => none) = none ∧
      render_texture true testTexture (fun _ => none) = none := by
  constructor
  · rfl
  · rfl

/-! ## C10: `find_spans` returns exactly the maximal runs -/
/-- C10: `find_spans` returns exactly the maximal runs of consecutive
`true` values, in increasing order: every returned range is nonempty,
within bounds, covers only `true` positions, is flanked by `false` or the
buffer edge on both sides; the ranges are strictly ordered with gaps (so
pairwise disjoint); and every `true` position lies in exactly one range. -/
theorem find_spans_spec (buf : List Bool) :
    (∀ p ∈ find_spans buf,
      p.1 < p.2 ∧ p.2 ≤ buf.length ∧
      (∀ j, p.1 ≤ j → j < p.2 → buf.getD j false = true) ∧
      (p.1 = 0 ∨ buf.getD (p.1 - 1) false = false) ∧
      (p.2 = buf.length ∨ buf.getD p.2 false = false)) ∧
    List.Pairwise (fun a b => a.2 < b.1) (find_spans buf) ∧
    (∀ j, j < buf.length → buf.getD j false = true →
      ∃! p, p ∈ find_spans buf ∧ p.1 ≤ j ∧ j < p.2) := by
  refine ⟨find_spans_mem buf, find_spans_pairwise buf, ?_⟩
  intro j hj ht
  obtain ⟨p, hp, hcov⟩ := find_spans_cover buf j hj ht
  refine ⟨p, ⟨hp, hcov⟩, ?_⟩
  rintro q ⟨hq, hqcov⟩
  by_contra hne
  have hsym : List.Pairwise
      (fun a b : Nat × Nat => a.2 < b.1 ∨ b.2 < a.1) (find_spans buf) :=
    (find_spans_pairwise buf).imp Or.inl
  have := List.Pairwise.forall (fun a b h => h.symm) hsym hq hp hne
  rcases this with h | h
  · omega
  · omega

/-- Witness for C10 at a concrete buffer. -/
theorem find_spans_spec_witness :
    ∃! p, p ∈ find_spans [true, false, true, true] ∧ p.1 ≤ 2 ∧ 2 < p.2 :=
  (find_spans_spec [true, false, true, true]).2.2 2 (by decide) (by decide)

/-! ## C5: totality of `draw_patch` and off-canvas clipping -/
theorem foldlM_option {γ β : Type} (P : β → Prop) (f : β → γ → Option β)
    (g : β → γ → β) :
    ∀ (l : List γ), (∀ b x, P b → x ∈ l → f b x = some (g b x)) →
      (∀ b x, P b → P (g b x)) → ∀ b, P b →
      l.foldlM f b = some (l.foldl g b) := by
  intro l
  induction l with
  | nil =>
      intro _ _ b _
      rfl
  | cons x xs ih =>
      intro hf hg b hP
      rw [List.foldlM_cons, hf b x hP (List.mem_cons_self _ _)]
      rw [List.foldl_cons]
      show List.foldlM f (g b x) xs = some (List.foldl g (g b x) xs)
      exact ih (fun b x hP hm => hf b x hP (List.mem_cons_of_mem _ hm)) hg
        (g b x) (hg b x hP)

namespace SpriteCanvas

theorem drawSpanRows_eq_fold (c : SpriteCanvas) (x yoff : Int)
    (pix : List Nat) :
    c.drawSpanRows x yoff pix =
      (rangeList (max (0 + yoff) 0)
        (min ((pix.length : Int) + yoff) (c.height : Int))).foldl
        (fun c y => c.write x.toNat y.toNat (pix.getD (y - yoff).toNat 0))
        c := rfl

theorem drawSpanRowsChecked_eq_fold (c : SpriteCanvas) (x yoff : Int)
    (pix : List Nat) :
    c.drawSpanRowsChecked x yoff pix =
      (rangeList (max (0 + yoff) 0)
        (min ((pix.length : Int) + yoff) (c.height : Int))).foldlM
        (fun c y => writeChecked c x y yoff pix) c := rfl

theorem drawSpanRowsChecked_some (c : SpriteCanvas) (x yoff : Int)
    (pix : List Nat) (hx : 0 ≤ x) (hxw : x.toNat < c.width) :
    c.drawSpanRowsChecked x yoff pix = some (c.drawSpanRows x yoff pix) := by
  rw [drawSpanRowsChecked_eq_fold, drawSpanRows_eq_fold]
  refine foldlM_option
    (fun b => b.width = c.width ∧ b.height = c.height) _ _ _ ?_ ?_ c
    ⟨rfl, rfl⟩
  · intro b y hP hm
    rw [mem_rangeList] at hm
    rw [writeChecked, if_pos]
    refine ⟨by omega, by omega, hx, ?_, by omega, ?_⟩
    · rw [hP.1]
      exact hxw
    · rw [hP.2]
      omega
  · intro b y hP
    exact ⟨hP.1, hP.2⟩

theorem drawColumnChecked_some (c : SpriteCanvas) (off2 x : Int)
    (spans : List Span) (hx : 0 ≤ x) (hxw : x.toNat < c.width) :
    c.drawColumnChecked off2 x spans = some (c.drawColumn off2 x spans) := by
  unfold drawColumnChecked drawColumn
  refine foldlM_option
    (fun b => b.width = c.width ∧ b.height = c.height) _ _ _ ?_ ?_ c
    ⟨rfl, rfl⟩
  · intro b sp hP _
    refine drawSpanRowsChecked_some b x _ _ hx ?_
    rw [hP.1]
    exact hxw
  · intro b sp hP
    exact ⟨by rw [drawSpanRows_width, hP.1],
      by rw [drawSpanRows_height, hP.2]⟩

theorem draw_patchChecked_eq_fold (c : SpriteCanvas) (px py : Int)
    (S : Sprite) :
    c.draw_patchChecked px py S =
      (rangeList (max (0 + (px - S.left)) 0)
        (min ((S.width : Int) + (px - S.left)) (c.width : Int))).foldlM
        (fun c x =>
          if 0 ≤ x - (px - S.left) ∧
              (x - (px - S.left)).toNat < S.columns.length then
            c.drawColumnChecked (py - S.top) x
              (S.columns.getD ((x - (px - S.left)).toNat) [])
          else none) c := rfl

/-- First half of C5: `draw_patch` never panics — every indexing operation
in it is in range, for every canvas, sprite and signed position. -/
theorem draw_patchChecked_some (c : SpriteCanvas) (px py : Int)
    (S : Sprite) :
    c.draw_patchChecked px py S = some (c.draw_patch px py S) := by
  rw [draw_patchChecked_eq_fold, draw_patch_eq_fold]
  refine foldlM_option (fun b => b.width = c.width ∧ b.height = c.height)
    _ _ _ ?_ ?_ c ⟨rfl, rfl⟩
  · intro b x hP hm
    rw [mem_rangeList] at hm
    have hW : (S.width : Int) = (S.columns.length : Int) := rfl
    rw [if_pos ⟨by omega, by omega⟩]
    refine drawColumnChecked_some b _ x _ (by omega) ?_
    rw [hP.1]
    omega
  · intro b x hP
    exact ⟨by rw [drawColumn_width, hP.1],
      by rw [drawColumn_height, hP.2]⟩

theorem drawSpanRows_id (c : SpriteCanvas) (x yoff : Int) (pix : List Nat)
    (h : min ((pix.length : Int) + yoff) (c.height : Int) ≤
      max (0 + yoff) 0) :
    c.drawSpanRows x yoff pix = c := by
  rw [drawSpanRows_eq_fold, rangeList_eq_nil _ _ h, List.foldl_nil]

theorem drawColumn_id (c : SpriteCanvas) (off2 x : Int) :
    ∀ (spans : List Span),
    (∀ sp ∈ spans, min ((sp.pixels.length : Int) + (off2 + sp.top))
      (c.height : Int) ≤ max (0 + (off2 + sp.top)) 0) →
    c.drawColumn off2 x spans = c := by
  intro spans
  induction spans with
  | nil =>
      intro _
      rfl
  | cons sp rest ih =>
      intro h
      rw [drawColumn_cons, drawSpanRows_id c x _ _
        (h sp (List.mem_cons_self _ _))]
      exact ih fun sp' hm => h sp' (List.mem_cons_of_mem _ hm)

/-- Second half of C5: a placement that lies entirely outside the canvas
(any of the four sides) leaves the canvas unchanged. -/
theorem draw_patch_offcanvas_eq (c : SpriteCanvas) (px py : Int)
    (S : Sprite)
    (h : px - S.left + S.width ≤ 0 ∨ (c.width : Int) ≤ px - S.left ∨
      (c.height : Int) ≤ py - S.top ∨
      (∀ col ∈ S.columns, ∀ sp ∈ col,
        py - S.top + sp.top + sp.pixels.length ≤ 0)) :
    c.draw_patch px py S = c := by
  rcases h with h | h | h | h
  · rw [draw_patch_eq_fold, rangeList_eq_nil _ _ (by omega), List.foldl_nil]
  · rw [draw_patch_eq_fold, rangeList_eq_nil _ _ (by omega), List.foldl_nil]
  · rw [draw_patch_eq_fold]
    have hid : ∀ (xs : List Int),
        xs.foldl (fun b x => b.drawColumn (py - S.top) x
          (S.columns.getD ((x - (px - S.left)).toNat) [])) c = c := by
      intro xs
      induction xs with
      | nil => rfl
      | cons x rest ih =>
          rw [List.foldl_cons, drawColumn_id c _ x _ (by
            intro sp _
            have : (0 : Int) ≤ sp.top := by omega
            omega)]
          exact ih
    exact hid _
  · rw [draw_patch_eq_fold]
    have hid : ∀ (xs : List Int),
        xs.foldl (fun b x => b.drawColumn (py - S.top) x
          (S.columns.getD ((x - (px - S.left)).toNat) [])) c = c := by
      intro xs
      induction xs with
      | nil => rfl
      | cons x rest ih =>
          rw [List.foldl_cons, drawColumn_id c _ x _ (by
            intro sp hsp
            rcases Nat.lt_or_ge ((x - (px - S.left)).toNat)
              S.columns.length with hx | hx
            · have hmem : S.columns.getD ((x - (px - S.left)).toNat) [] ∈
                  S.columns := by
                rw [List.getD_eq_getElem?_getD, List.getElem?_eq_getElem hx]
                exact List.getElem_mem _
              have := h _ hmem sp hsp
              omega
            · rw [List.getD_eq_default _ _ (by omega)] at hsp
              exact absurd hsp (List.not_mem_nil sp))]
          exact ih
    exact hid _

end SpriteCanvas

/-- C5: `draw_patch` completes without error for every canvas, sprite and
signed position (the bounds-checked variant always succeeds and agrees
with it), and a placement entirely outside the canvas bounds leaves the
canvas's pixel and mask planes unchanged. -/
theorem draw_patch_total_and_clipped (c : SpriteCanvas) (px py : Int)
    (S : Sprite) :
    c.draw_patchChecked px py S = some (c.draw_patch px py S) ∧
      ((px - S.left + S.width ≤ 0 ∨ (c.width : Int) ≤ px - S.left ∨
        (c.height : Int) ≤ py - S.top ∨
        (∀ col ∈ S.columns, ∀ sp ∈ col,
          py - S.top + sp.top + sp.pixels.length ≤ 0)) →
        c.draw_patch px py S = c) :=
  ⟨SpriteCanvas.draw_patchChecked_some c px py S,
    fun h => SpriteCanvas.draw_patch_offcanvas_eq c px py S h⟩

/-- Witness for C5: a sprite stamped at x = 100 on a 4×4 canvas is fully
clipped away. -/
theorem draw_patch_total_and_clipped_witness :
    (SpriteCanvas.new 4 4).draw_patchChecked 100 0
        (Sprite.mk 4 0 0 [[Span.mk 0 [5]]]) =
      some ((SpriteCanvas.new 4 4).draw_patch 100 0
        (Sprite.mk 4 0 0 [[Span.mk 0 [5]]])) ∧
      (SpriteCanvas.new 4 4).draw_patch 100 0
        (Sprite.mk 4 0 0 [[Span.mk 0 [5]]]) = SpriteCanvas.new 4 4 :=
  ⟨(draw_patch_total_and_clipped (SpriteCanvas.new 4 4) 100 0
      (Sprite.mk 4 0 0 [[Span.mk 0 [5]]])).1,
    (draw_patch_total_and_clipped (SpriteCanvas.new 4 4) 100 0
      (Sprite.mk 4 0 0 [[Span.mk 0 [5]]])).2
      (Or.inr (Or.inl (by norm_num [SpriteCanvas.new])))⟩

theorem blockOffsets_length (blocks : List (List Nat)) :
    ∀ base, (blockOffsets base blocks).length = blocks.length := by
  induction blocks with
  | nil => intro base; rfl
  | cons b bs ih =>
      intro base
      show (blockOffsets base (b :: bs)).length = bs.length + 1
      rw [blockOffsets, List.length_cons, ih]

theorem blockOffsets_getD (blocks : List (List Nat)) :
    ∀ (base i : Nat), i < blocks.length →
      (blockOffsets base blocks).getD i 0 =
        (base + sumLens (blocks.take i)) % 4294967296 := by
  induction blocks with
  | nil =>
      intro base i hi
      simp at hi
  | cons b bs ih =>
      intro base i hi
      cases i with
      | zero =>
          show (blockOffsets base (b :: bs)).getD 0 0 = _
          rw [blockOffsets, List.getD_cons_zero]
          simp [sumLens]
      | succ i =>
          show (blockOffsets base (b :: bs)).getD (i + 1) 0 = _
          rw [blockOffsets, List.getD_cons_succ,
            ih (base + b.length) i (by simpa using hi)]
          rw [List.take_succ_cons]
          simp only [sumLens, List.map_cons, List.sum_cons]
          ring_nf

theorem mapM_eq_some_map {α β : Type} (f : α → Option β) (g : α → β) :
    ∀ (l : List α), (∀ x ∈ l, f x = some (g x)) →
      l.mapM f = some (l.map g) := by
  intro l
  induction l with
  | nil => intro _; rfl
  | cons x xs ih =>
      intro h
      rw [List.mapM_cons, h x (List.mem_cons_self _ _),
        ih fun x hm => h x (List.mem_cons_of_mem _ hm)]
      rfl

theorem mapM_length {α β : Type} (f : α → Option β) :
    ∀ (l : List α) (r : List β), l.mapM f = some r → r.length = l.length := by
  intro l
  induction l with
  | nil =>
      intro r h
      rw [show (List.mapM f [] : Option (List β)) = some [] from rfl] at h
      cases h
      rfl
  | cons x xs ih =>
      intro r h
      rw [List.mapM_cons] at h
      cases hx : f x with
      | none => rw [hx] at h; cases h
      | some b =>
          rw [hx] at h
          cases hxs : List.mapM f xs with
          | none =>
              rw [hxs] at h
              cases h
          | some bs =>
              rw [hxs] at h
              have : r = b :: bs := by
                cases h
                rfl
              rw [this, List.length_cons, ih bs hxs]
              rfl

theorem mapM_getD_some {α β : Type} (f : α → Option β) :
    ∀ (l : List α) (r : List β), l.mapM f = some r →
      ∀ (i : Nat) (da : α) (db : β), i < l.length →
        f (l.getD i da) = some (r.getD i db) := by
  intro l
  induction l with
  | nil =>
      intro r h i da db hi
      simp at hi
  | cons x xs ih =>
      intro r h i da db hi
      rw [List.mapM_cons] at h
      cases hx : f x with
      | none => rw [hx] at h; cases h
      | some b =>
          rw [hx] at h
          cases hxs : List.mapM f xs with
          | none =>
              rw [hxs] at h
              cases h
          | some bs =>
              rw [hxs] at h
              have hr : r = b :: bs := by
                cases h
                rfl
              subst hr
              cases i with
              | zero =>
                  rw [List.getD_cons_zero, List.getD_cons_zero, hx]
              | succ i =>
                  rw [List.getD_cons_succ, List.getD_cons_succ]
                  exact ih bs hxs i da db (by simpa using hi)

namespace SpriteCanvas

theorem msCols_eq (c : SpriteCanvas) :
    ∀ (xs : List Nat) (blocks : List (List Nat))
      (colArr data : List Nat),
      xs.mapM (encodeColumn c) = some blocks →
      msCols c xs colArr data =
        some (colArr ++ blockOffsets data.length blocks,
          data ++ blocks.flatten) := by
  intro xs
  induction xs with
  | nil =>
      intro blocks colArr data h
      rw [show (List.mapM (encodeColumn c) [] :
          Option (List (List Nat))) = some [] from rfl] at h
      cases h
      simp [msCols, blockOffsets]
  | cons x xs ih =>
      intro blocks colArr data h
      rw [List.mapM_cons] at h
      cases hx : encodeColumn c x with
      | none => rw [hx] at h; cases h
      | some b =>
          rw [hx] at h
          cases hxs : List.mapM (encodeColumn c) xs with
          | none =>
              rw [hxs] at h
              cases h
          | some bs =>
              rw [hxs] at h
              have hb : blocks = b :: bs := by
                cases h
                rfl
              subst hb
              have hstep : msCols c (x :: xs) colArr data =
                  msCols c xs (colArr ++ [data.length % 4294967296])
                    (data ++ b) := by
                rw [show msCols c (x :: xs) colArr data =
                    match encodeColumn c x with
                    | none => none
                    | some block => msCols c xs
                        (colArr ++ [data.length % 4294967296])
                        (data ++ block) from rfl, hx]
              rw [hstep, ih bs _ _ hxs, blockOffsets]
              simp only [List.length_append, List.flatten_cons,
                List.append_assoc, List.cons_append, List.nil_append]

theorem msCols_some_encodeColumn (c : SpriteCanvas) :
    ∀ (xs : List Nat) (colArr data : List Nat)
      (r : List Nat × List Nat), msCols c xs colArr data = some r →
      ∀ x ∈ xs, ∃ b, encodeColumn c x = some b := by
  intro xs
  induction xs with
  | nil =>
      intro _ _ _ _ x hx
      exact absurd hx (List.not_mem_nil x)
  | cons x0 xs ih =>
      intro colArr data r h x hx
      rw [show msCols c (x0 :: xs) colArr data =
          match encodeColumn c x0 with
          | none => none
          | some block => msCols c xs
              (colArr ++ [data.length % 4294967296])
              (data ++ block) from rfl] at h
      cases hx0 : encodeColumn c x0 with
      | none =>
          rw [hx0] at h
          cases h
      | some b =>
          rw [hx0] at h
          rcases List.mem_cons.mp hx with rfl | hx
          · exact ⟨b, hx0⟩
          · exact ih _ _ r h x hx

theorem make_sprite_eq (c : SpriteCanvas) (blocks : List (List Nat))
    (hb : (List.range c.width).mapM (encodeColumn c) = some blocks) :
    c.make_sprite =
      some (u16le c.width ++ u16le c.height ++ u16le 0 ++ u16le 0 ++
        ((blockOffsets 0 blocks).map fun col =>
          u32le ((col + (8 + 4 * blocks.length) % 4294967296) %
            4294967296)).flatten ++ blocks.flatten) := by
  rw [show c.make_sprite =
      match msCols c (List.range c.width) [] [] with
      | none => none
      | some (colArr, data) =>
          some (u16le c.width ++ u16le c.height ++ u16le 0 ++ u16le 0 ++
            (colArr.map fun col =>
              u32le ((col + (8 + 4 * colArr.length) % 4294967296) %
                4294967296)).flatten ++ data) from rfl]
  rw [msCols_eq c _ blocks [] [] hb]
  simp only [List.nil_append, List.length_nil]
  rw [blockOffsets_length]

theorem make_sprite_some_blocks (c : SpriteCanvas) (out : List Nat)
    (h : c.make_sprite = some out) :
    ∃ blocks, (List.range c.width).mapM (encodeColumn c) = some blocks := by
  rw [show c.make_sprite =
      match msCols c (List.range c.width) [] [] with
      | none => none
      | some (colArr, data) =>
          some (u16le c.width ++ u16le c.height ++ u16le 0 ++ u16le 0 ++
            (colArr.map fun col =>
              u32le ((col + (8 + 4 * colArr.length) % 4294967296) %
                4294967296)).flatten ++ data) from rfl] at h
  cases hms : msCols c (List.range c.width) [] [] with
  | none =>
      rw [hms] at h
      cases h
  | some r =>
      have hall := msCols_some_encodeColumn c _ _ _ r hms
      refine ⟨(List.range c.width).map fun x => (encodeColumn c x).getD [],
        mapM_eq_some_map _ _ _ fun x hx => ?_⟩
      obtain ⟨b, hbx⟩ := hall x hx
      rw [hbx]
      rfl

theorem pixSlice_length (c : SpriteCanvas) (x s e : Nat) :
    (c.pixSlice x s e).length = e - s := by
  rw [pixSlice, List.length_map, List.length_range]

theorem encodeSpans_wf (c : SpriteCanvas) (x : Nat) :
    ∀ (runs : List (Nat × Nat)) (bytes : List Nat),
      c.encodeSpans x runs = some bytes →
      (∀ r ∈ runs, r.1 < 255) →
      WFCol bytes (runs.map fun r => Span.mk r.1 (c.pixSlice x r.1 r.2)) := by
  intro runs
  induction runs with
  | nil =>
      intro bytes h _
      rw [show c.encodeSpans x [] = some [255] from rfl] at h
      cases h
      exact WFCol.term []
  | cons r rest ih =>
      intro bytes h hlt
      obtain ⟨s, e⟩ := r
      rw [show c.encodeSpans x ((s, e) :: rest) =
          (if e - s ≤ 128 then
            (c.encodeSpans x rest).map fun restB =>
              s % 256 :: (e - s) % 256 :: (e - s) % 256 ::
                (c.pixSlice x s e ++ 0 :: restB)
          else none) from rfl] at h
      by_cases hle : e - s ≤ 128
      · rw [if_pos hle] at h
        cases hrest : c.encodeSpans x rest with
        | none =>
            rw [hrest] at h
            cases h
        | some restB =>
            rw [hrest] at h
            have hbytes : bytes = s % 256 :: (e - s) % 256 ::
                (e - s) % 256 :: (c.pixSlice x s e ++ 0 :: restB) := by
              cases h
              rfl
            subst hbytes
            have hs255 : s < 255 := hlt (s, e) (List.mem_cons_self _ _)
            have hs : s % 256 = s := Nat.mod_eq_of_lt (by omega)
            have hlen : (c.pixSlice x s e).length = (e - s) % 256 := by
              rw [pixSlice_length, Nat.mod_eq_of_lt (by omega)]
            have hwfrest := ih restB hrest
              fun r hm => hlt r (List.mem_cons_of_mem _ hm)
            rw [List.map_cons]
            rw [show Span.mk (s, e).1 (c.pixSlice x (s, e).1 (s, e).2) =
                Span.mk (s % 256) (c.pixSlice x s e) from by
              show Span.mk s (c.pixSlice x s e) = _
              rw [hs]]
            exact WFCol.post (s % 256) ((e - s) % 256) ((e - s) % 256) 0
              (c.pixSlice x s e) restB _ (by rw [hs]; omega) hlen hwfrest
      · rw [if_neg hle] at h
        cases h

theorem encodeSpans_length (c : SpriteCanvas) (x : Nat) :
    ∀ (runs : List (Nat × Nat)) (bytes : List Nat),
      c.encodeSpans x runs = some bytes →
      bytes.length = (runs.map fun r => 4 + (r.2 - r.1)).sum + 1 := by
  intro runs
  induction runs with
  | nil =>
      intro bytes h
      rw [show c.encodeSpans x [] = some [255] from rfl] at h
      cases h
      rfl
  | cons r rest ih =>
      intro bytes h
      obtain ⟨s, e⟩ := r
      rw [show c.encodeSpans x ((s, e) :: rest) =
          (if e - s ≤ 128 then
            (c.encodeSpans x rest).map fun restB =>
              s % 256 :: (e - s) % 256 :: (e - s) % 256 ::
                (c.pixSlice x s e ++ 0 :: restB)
          else none) from rfl] at h
      by_cases hle : e - s ≤ 128
      · rw [if_pos hle] at h
        cases hrest : c.encodeSpans x rest with
        | none =>
            rw [hrest] at h
            cases h
        | some restB =>
            rw [hrest] at h
            have hbytes : bytes = s % 256 :: (e - s) % 256 ::
                (e - s) % 256 :: (c.pixSlice x s e ++ 0 :: restB) := by
              cases h
              rfl
            subst hbytes
            simp only [List.length_cons, List.length_append,
              pixSlice_length, List.map_cons, List.sum_cons, ih restB hrest]
            omega
      · rw [if_neg hle] at h
        cases h

theorem maskCol_getD (c : SpriteCanvas) (x j : Nat) (hj : j < c.height) :
    (c.maskCol x).getD j false = c.mask x j := by
  rw [maskCol, getD_map_range _ _ _ _ hj]

theorem maskCol_length (c : SpriteCanvas) (x : Nat) :
    (c.maskCol x).length = c.height := by
  rw [maskCol, List.length_map, List.length_range]

end SpriteCanvas

/-- Sum of run lengths of gapped, ordered runs below bound `B` starting at
or after `lo` is at most `B - lo`. -/
theorem runs_sum_le (B : Nat) :
    ∀ (runs : List (Nat × Nat)) (lo : Nat),
      List.Pairwise (fun a b => a.2 < b.1) runs →
      (∀ r ∈ runs, lo ≤ r.1 ∧ r.1 < r.2 ∧ r.2 ≤ B) →
      (runs.map fun r => r.2 - r.1).sum ≤ B - lo := by
  intro runs
  induction runs with
  | nil =>
      intro lo _ _
      simp
  | cons r rest ih =>
      intro lo hpw hmem
      have hpw' := List.pairwise_cons.mp hpw
      have hr := hmem r (List.mem_cons_self _ _)
      have hrest := ih r.2 hpw'.2 fun q hq =>
        ⟨le_of_lt (hpw'.1 q hq), (hmem q (List.mem_cons_of_mem _ hq)).2⟩
      rw [List.map_cons, List.sum_cons]
      omega

/-- Each run list's element count is at most the sum of its lengths. -/
theorem runs_length_le_sum (runs : List (Nat × Nat))
    (h : ∀ r ∈ runs, r.1 < r.2) :
    runs.length ≤ (runs.map fun r => r.2 - r.1).sum := by
  induction runs with
  | nil => simp
  | cons r rest ih =>
      rw [List.length_cons, List.map_cons, List.sum_cons]
      have h1 := h r (List.mem_cons_self _ _)
      have h2 := ih fun q hq => h q (List.mem_cons_of_mem _ hq)
      omega

namespace SpriteCanvas

/-- Length bound for one encoded column, given a bound on the rows where
its mask is set. -/
theorem encodeColumn_length_le (c : SpriteCanvas) (x B : Nat)
    (b : List Nat) (hb : c.encodeColumn x = some b)
    (hm : ∀ y, c.mask x y = true → y < B) :
    b.length ≤ 5 * B + 1 := by
  have hruns := find_spans_mem (c.maskCol x)
  have hend : ∀ r ∈ find_spans (c.maskCol x), r.1 < r.2 ∧ r.2 ≤ B := by
    intro r hr
    obtain ⟨h1, h2, h3, -, -⟩ := hruns r hr
    refine ⟨h1, ?_⟩
    have ht := h3 (r.2 - 1) (by omega) (by omega)
    by_cases hlt : r.2 - 1 < c.height
    · rw [maskCol_getD c x _ hlt] at ht
      have := hm _ ht
      omega
    · rw [List.getD_eq_default] at ht
      · cases ht
      · rw [maskCol_length]
        omega
  have hsum := runs_sum_le B (find_spans (c.maskCol x)) 0
    (find_spans_pairwise _) (fun r hr => ⟨Nat.zero_le _, hend r hr⟩)
  have hcnt := runs_length_le_sum (find_spans (c.maskCol x))
    fun r hr => (hend r hr).1
  have hlen := encodeSpans_length c x _ b hb
  have hsplit : ((find_spans (c.maskCol x)).map
      fun r => 4 + (r.2 - r.1)).sum =
      4 * (find_spans (c.maskCol x)).length +
        ((find_spans (c.maskCol x)).map fun r => r.2 - r.1).sum := by
    generalize find_spans (c.maskCol x) = l
    induction l with
    | nil => simp
    | cons r rest ih =>
        simp only [List.map_cons, List.sum_cons, List.length_cons, ih]
        ring
  omega

end SpriteCanvas

theorem sumLens_take_le (blocks : List (List Nat)) (i : Nat) :
    sumLens (blocks.take i) ≤ sumLens blocks := by
  unfold sumLens
  rw [List.map_take]
  have := List.sum_take_add_sum_drop (blocks.map List.length) i
  omega

theorem sumLens_take_succ (blocks : List (List Nat)) (i : Nat)
    (hi : i < blocks.length) :
    sumLens (blocks.take (i + 1)) =
      sumLens (blocks.take i) + (blocks.getD i []).length := by
  unfold sumLens
  rw [List.take_succ, List.map_append, List.sum_append]
  rw [List.getD_eq_getElem?_getD, List.getElem?_eq_getElem hi]
  simp

theorem flatten_block_slice (blocks : List (List Nat)) :
    ∀ (i : Nat), i < blocks.length →
      ((blocks.flatten).drop (sumLens (blocks.take i))).take
        (sumLens (blocks.take (i + 1)) - sumLens (blocks.take i)) =
        blocks.getD i [] := by
  induction blocks with
  | nil =>
      intro i hi
      simp at hi
  | cons b bs ih =>
      intro i hi
      cases i with
      | zero =>
          simp only [List.take_zero, List.take_succ_cons, List.take_zero,
            List.flatten_cons, List.drop_zero, List.getD_cons_zero]
          rw [show sumLens [] = 0 from rfl, show sumLens [b] = b.length by
            simp [sumLens]]
          rw [Nat.sub_zero, List.drop_zero, List.take_left]
      | succ i =>
          simp only [List.take_succ_cons, List.flatten_cons,
            List.getD_cons_succ]
          rw [show sumLens (b :: bs.take i) = b.length +
              sumLens (bs.take i) by simp [sumLens],
            show sumLens (b :: bs.take (i + 1)) = b.length +
              sumLens (bs.take (i + 1)) by simp [sumLens]]
          rw [List.drop_append]
          rw [show b.length + sumLens (bs.take (i + 1)) -
            (b.length + sumLens (bs.take i)) =
            sumLens (bs.take (i + 1)) - sumLens (bs.take i) by omega]
          exact ih i (by simpa using hi)

theorem flatten_length_sumLens (blocks : List (List Nat)) :
    blocks.flatten.length = sumLens blocks := by
  rw [List.length_flatten, sumLens]

theorem readU16_append_right' (l r : List Nat) (i j : Nat)
    (h : j = l.length + i) : readU16 (l ++ r) j = readU16 r i := by
  subst h
  exact readU16_append_right l r i

theorem readU32_append_right' (l r : List Nat) (i j : Nat)
    (h : j = l.length + i) : readU32 (l ++ r) j = readU32 r i := by
  subst h
  exact readU32_append_right l r i

theorem length_flatten_u32le (f : Nat → Nat) :
    ∀ (l : List Nat), ((l.map fun v => u32le (f v)).flatten).length =
      4 * l.length := by
  intro l
  induction l with
  | nil => rfl
  | cons v rest ih =>
      rw [List.map_cons, List.flatten_cons, List.length_append, ih,
        List.length_cons]
      rw [u32le_length]
      omega

theorem readU32_flatten_u32le (f : Nat → Nat) :
    ∀ (l : List Nat) (i : Nat), i < l.length →
      readU32 ((l.map fun v => u32le (f v)).flatten) (4 * i) =
        f (l.getD i 0) % 4294967296 := by
  intro l
  induction l with
  | nil =>
      intro i hi
      simp at hi
  | cons v rest ih =>
      intro i hi
      rw [List.map_cons, List.flatten_cons]
      cases i with
      | zero =>
          rw [Nat.mul_zero, readU32_u32le_append, List.getD_cons_zero]
      | succ i =>
          rw [readU32_append_right' _ _ (4 * i) _ (by
            rw [u32le_length]
            omega)]
          rw [List.getD_cons_succ]
          exact ih i (by simpa using hi)

theorem range_getD (n i d : Nat) (h : i < n) :
    (List.range n).getD i d = i := by
  rw [List.getD_eq_getElem?_getD, List.getElem?_range h]
  rfl

/-- WFCol column data parses to exactly its declared posts. -/
theorem parseColumn_wf (data : List Nat) (spans : List Span)
    (h : WFCol data spans) : parseColumn data = some spans :=
  parseColumnF_wf (data.length + 1) data spans h (Nat.lt_succ_self _)

theorem header8_length (w h : Nat) :
    (u16le w ++ u16le h ++ u16le 0 ++ u16le 0).length = 8 := rfl

theorem asI16_zero : asI16 0 = 0 := rfl

theorem readU32_u32le (n : Nat) : readU32 (u32le n) 0 = n % 4294967296 := by
  show n % 256 + 256 * (n / 256 % 256) + 65536 * (n / 65536 % 256) +
    16777216 * (n / 16777216 % 256) = n % 4294967296
  omega

theorem drop_append' (l r : List Nat) (i j : Nat) (h : j = l.length + i) :
    (l ++ r).drop j = r.drop i := by
  subst h
  rw [List.drop_append]

theorem readU32_flatten_len4 (g : Nat → List Nat)
    (hg : ∀ v, (g v).length = 4) :
    ∀ (l : List Nat) (i : Nat), i < l.length →
      readU32 ((l.map g).flatten) (4 * i) =
        readU32 (g (l.getD i 0) ++ ((l.drop (i + 1)).map g).flatten) 0 := by
  intro l
  induction l with
  | nil =>
      intro i hi
      simp at hi
  | cons v rest ih =>
      intro i hi
      rw [List.map_cons, List.flatten_cons]
      cases i with
      | zero =>
          rw [Nat.mul_zero, List.getD_cons_zero, List.drop_succ_cons,
            List.drop_zero]
      | succ i =>
          rw [readU32_append_right' _ _ (4 * i) _ (by rw [hg]; omega)]
          rw [List.getD_cons_succ, List.drop_succ_cons]
          exact ih i (by simpa using hi)

namespace SpriteCanvas

theorem make_sprite_eq_out (c : SpriteCanvas) (blocks : List (List Nat))
    (hb : (List.range c.width).mapM c.encodeColumn = some blocks) :
    c.make_sprite = some (spriteOut c blocks) := by
  rw [make_sprite_eq c blocks hb, spriteOut]
  simp only [List.append_assoc]

theorem make_sprite_dir_read (c : SpriteCanvas) (blocks : List (List Nat))
    (hb : (List.range c.width).mapM c.encodeColumn = some blocks)
    (hfit : 8 + 4 * c.width + sumLens blocks < 4294967296)
    (i : Nat) (hi : i < c.width) :
    readU32 (spriteOut c blocks) (8 + 4 * i) =
      8 + 4 * c.width + sumLens (blocks.take i) := by
  have hbl : blocks.length = c.width := by
    have := mapM_length _ _ _ hb
    simpa using this
  rw [spriteOut]
  rw [readU32_append_right' (u16le c.width) _ (6 + 4 * i) _
    (by rw [u16le_length]; omega)]
  rw [readU32_append_right' (u16le c.height) _ (4 + 4 * i) _
    (by rw [u16le_length]; omega)]
  rw [readU32_append_right' (u16le 0) _ (2 + 4 * i) _
    (by rw [u16le_length]; omega)]
  rw [readU32_append_right' (u16le 0) _ (4 * i) _ (by rw [u16le_length])]
  rw [readU32_append_left _ _ _ (by
    rw [length_flatten_u32le, blockOffsets_length]
    omega)]
  rw [readU32_flatten_len4 _ (fun v => u32le_length _) _ i
    (by rw [blockOffsets_length]; omega)]
  rw [readU32_u32le_append]
  rw [blockOffsets_getD _ _ _ (by omega)]
  have h1 : sumLens (blocks.take i) ≤ sumLens blocks := sumLens_take_le _ _
  rw [hbl]
  omega

theorem spriteOut_length (c : SpriteCanvas) (blocks : List (List Nat)) :
    (spriteOut c blocks).length = 8 + 4 * blocks.length + sumLens blocks := by
  rw [spriteOut]
  simp only [List.length_append, u16le_length]
  rw [length_flatten_u32le, blockOffsets_length, flatten_length_sumLens]
  omega

theorem make_sprite_new_raw (c : SpriteCanvas) (blocks : List (List Nat))
    (hb : (List.range c.width).mapM c.encodeColumn = some blocks)
    (hw : c.width < 65536) (hh : c.height < 65536)
    (hfit : 8 + 4 * c.width + sumLens blocks < 4294967296) :
    Sprite.new (spriteOut c blocks) =
      some ⟨c.width, c.height, 0, 0,
        (List.range c.width).map
          (fun i => 8 + 4 * c.width + sumLens (blocks.take i)),
        8 + 4 * c.width, blocks.flatten⟩ := by
  have hbl : blocks.length = c.width := by
    have := mapM_length _ _ _ hb
    simpa using this
  have hlen : (spriteOut c blocks).length =
      8 + 4 * c.width + sumLens blocks := by
    rw [spriteOut_length, hbl]
  have h0 : readU16 (spriteOut c blocks) 0 = c.width := by
    rw [spriteOut, readU16_u16le_append, Nat.mod_eq_of_lt hw]
  have h2 : readU16 (spriteOut c blocks) 2 = c.height := by
    rw [spriteOut]
    rw [readU16_append_right' (u16le c.width) _ 0 _ (by rw [u16le_length])]
    rw [readU16_u16le_append, Nat.mod_eq_of_lt hh]
  have h4 : readI16 (spriteOut c blocks) 4 = 0 := by
    rw [readI16, spriteOut]
    rw [readU16_append_right' (u16le c.width) _ 2 _
      (by rw [u16le_length])]
    rw [readU16_append_right' (u16le c.height) _ 0 _
      (by rw [u16le_length])]
    rw [readU16_u16le_append]
    rfl
  have h6 : readI16 (spriteOut c blocks) 6 = 0 := by
    rw [readI16, spriteOut]
    rw [readU16_append_right' (u16le c.width) _ 4 _
      (by rw [u16le_length])]
    rw [readU16_append_right' (u16le c.height) _ 2 _
      (by rw [u16le_length])]
    rw [readU16_append_right' (u16le 0) _ 0 _ (by rw [u16le_length])]
    rw [readU16_u16le_append]
    rfl
  have hdrop : (spriteOut c blocks).drop (8 + 4 * c.width) =
      blocks.flatten := by
    rw [spriteOut]
    rw [drop_append' (u16le c.width) _ (6 + 4 * c.width) _
      (by rw [u16le_length]; omega)]
    rw [drop_append' (u16le c.height) _ (4 + 4 * c.width) _
      (by rw [u16le_length]; omega)]
    rw [drop_append' (u16le 0) _ (2 + 4 * c.width) _
      (by rw [u16le_length]; omega)]
    rw [drop_append' (u16le 0) _ (4 * c.width) _ (by rw [u16le_length])]
    rw [drop_append' _ _ 0 _ (by
      rw [length_flatten_u32le, blockOffsets_length, hbl]
      omega)]
    rw [List.drop_zero]
  rw [Sprite.new, h0]
  rw [if_pos (by omega), if_pos (by omega)]
  rw [h2, h4, h6, hdrop]
  rw [List.map_congr_left fun i hm => make_sprite_dir_read c blocks hb hfit
    i (List.mem_range.mp hm)]

end SpriteCanvas

/-- Evaluation of `Sprite::col` when the directory entry and the column's
byte range are in bounds: the column slice is handed to the post iterator. -/
theorem SpriteRaw_col_eval (s : SpriteRaw) (i start endv : Nat)
    (h1 : i < s.column_array.length)
    (h2 : s.column_array.getD i 0 = s.data_offset + start)
    (h3 : (i + 1 < s.column_array.length ∧
        s.column_array.getD (i + 1) 0 = s.data_offset + endv) ∨
      (¬i + 1 < s.column_array.length ∧ endv = s.data.length))
    (h4 : start ≤ endv) (h5 : endv ≤ s.data.length) :
    s.col i = parseColumn ((s.data.drop start).take (endv - start)) := by
  simp only [SpriteRaw.col]
  rw [if_pos h1, h2]
  rw [if_pos (Nat.le_add_right _ _)]
  rcases h3 with ⟨hlt, hv⟩ | ⟨hge, hv⟩
  · rw [if_pos hlt, hv, if_pos (Nat.le_add_right _ _)]
    simp only [Nat.add_sub_cancel_left]
    rw [if_pos ⟨h4, h5⟩]
  · rw [if_neg hge]
    simp only [Nat.add_sub_cancel_left]
    rw [← hv]
    rw [if_pos ⟨h4, le_refl _⟩]

namespace SpriteCanvas

theorem decoded_col (c : SpriteCanvas) (blocks : List (List Nat))
    (hb : (List.range c.width).mapM c.encodeColumn = some blocks)
    (h255 : ∀ x, x < c.width → ∀ r ∈ find_spans (c.maskCol x), r.1 < 255)
    (i : Nat) (hi : i < c.width) :
    SpriteRaw.col ⟨c.width, c.height, 0, 0,
      (List.range c.width).map
        (fun j => 8 + 4 * c.width + sumLens (blocks.take j)),
      8 + 4 * c.width, blocks.flatten⟩ i =
      some ((find_spans (c.maskCol i)).map
        fun r => Span.mk r.1 (c.pixSlice i r.1 r.2)) := by
  have hbl : blocks.length = c.width := by
    have := mapM_length _ _ _ hb
    simpa using this
  have hblock : c.encodeColumn i = some (blocks.getD i []) := by
    have := mapM_getD_some _ _ _ hb i 0 []
      (by rw [List.length_range]; exact hi)
    rwa [range_getD _ _ _ hi] at this
  have hwf : WFCol (blocks.getD i [])
      ((find_spans (c.maskCol i)).map
        fun r => Span.mk r.1 (c.pixSlice i r.1 r.2)) :=
    encodeSpans_wf c i _ _ hblock (h255 i hi)
  have hcalen : ((List.range c.width).map
      (fun j => 8 + 4 * c.width + sumLens (blocks.take j))).length =
      c.width := by
    rw [List.length_map, List.length_range]
  have hdlen : (blocks.flatten).length = sumLens blocks :=
    flatten_length_sumLens blocks
  have hsub : sumLens (blocks.take (i + 1)) =
      sumLens (blocks.take i) + (blocks.getD i []).length :=
    sumLens_take_succ blocks i (by omega)
  have hle1 : sumLens (blocks.take (i + 1)) ≤ sumLens blocks :=
    sumLens_take_le blocks (i + 1)
  rw [SpriteRaw_col_eval _ i (sumLens (blocks.take i))
    (sumLens (blocks.take (i + 1)))
    (by rw [hcalen]; exact hi)
    (by
      show ((List.range c.width).map
        (fun j => 8 + 4 * c.width + sumLens (blocks.take j))).getD i 0 = _
      rw [getD_map_range _ _ _ _ hi])
    (by
      rcases Nat.lt_or_ge (i + 1) c.width with hlt | hge
      · refine Or.inl ⟨by rw [hcalen]; exact hlt, ?_⟩
        show ((List.range c.width).map
          (fun j => 8 + 4 * c.width + sumLens (blocks.take j))).getD
            (i + 1) 0 = _
        rw [getD_map_range _ _ _ _ hlt]
      · refine Or.inr ⟨by rw [hcalen]; omega, ?_⟩
        show sumLens (blocks.take (i + 1)) = (blocks.flatten).length
        rw [hdlen]
        have : i + 1 = blocks.length := by omega
        rw [this, List.take_length]
      )
    (by omega)
    (by rw [hdlen]; exact hle1)]
  show parseColumn ((blocks.flatten.drop (sumLens (blocks.take i))).take
    (sumLens (blocks.take (i + 1)) - sumLens (blocks.take i))) = _
  rw [flatten_block_slice blocks i (by omega)]
  exact parseColumn_wf _ _ hwf

theorem make_sprite_decodeSprite (c : SpriteCanvas)
    (blocks : List (List Nat))
    (hb : (List.range c.width).mapM c.encodeColumn = some blocks)
    (hw : c.width < 65536) (hh : c.height < 65536)
    (hfit : 8 + 4 * c.width + sumLens blocks < 4294967296)
    (h255 : ∀ x, x < c.width → ∀ r ∈ find_spans (c.maskCol x), r.1 < 255)
    (out : List Nat) (hout : c.make_sprite = some out) :
    decodeSprite out =
      some ⟨c.height, 0, 0,
        (List.range c.width).map fun x =>
          (find_spans (c.maskCol x)).map
            fun r => Span.mk r.1 (c.pixSlice x r.1 r.2)⟩ := by
  have hout' : out = spriteOut c blocks := by
    have := make_sprite_eq_out c blocks hb
    rw [hout] at this
    exact Option.some_inj.mp this
  subst hout'
  rw [decodeSprite, make_sprite_new_raw c blocks hb hw hh hfit]
  show (match (List.range c.width).mapM
      (SpriteRaw.col ⟨c.width, c.height, 0, 0,
        (List.range c.width).map
          (fun i => 8 + 4 * c.width + sumLens (blocks.take i)),
        8 + 4 * c.width, blocks.flatten⟩) with
    | none => none
    | some cols => some (⟨c.height, 0, 0, cols⟩ : Sprite)) = _
  rw [mapM_eq_some_map _
    (fun x => (find_spans (c.maskCol x)).map
      fun r => Span.mk r.1 (c.pixSlice x r.1 r.2))
    (List.range c.width)
    (fun x hx => decoded_col c blocks hb h255 x (List.mem_range.mp hx))]

end SpriteCanvas

theorem Sprite_new_ca_length (bytes : List Nat) (s : SpriteRaw)
    (h : Sprite.new bytes = some s) : s.column_array.length = s.width := by
  simp only [Sprite.new] at h
  by_cases h8 : 8 ≤ bytes.length
  · rw [if_pos h8] at h
    by_cases hca : 8 + 4 * readU16 bytes 0 ≤ bytes.length
    · rw [if_pos hca] at h
      cases h
      simp
    · rw [if_neg hca] at h
      cases h
  · rw [if_neg h8] at h
    cases h

/-- C4: for a valid sprite column — the directory-derived byte range of
column `i` lies inside the buffer and holds a well-formed post sequence —
iterating `col i` terminates, yields exactly the declared posts in order
(stopping at the first post header byte 255), and performs no out-of-range
access (the bounds-checked iteration returns `some` rather than the
`none` that models a panic). -/
theorem sprite_col_valid (bytes : List Nat) (s : SpriteRaw)
    (hnew : Sprite.new bytes = some s) (i : Nat) (hi : i < s.width)
    (start endv : Nat) (posts : List Span)
    (h2 : s.column_array.getD i 0 = s.data_offset + start)
    (h3 : (i + 1 < s.column_array.length ∧
        s.column_array.getD (i + 1) 0 = s.data_offset + endv) ∨
      (¬i + 1 < s.column_array.length ∧ endv = s.data.length))
    (h4 : start ≤ endv) (h5 : endv ≤ s.data.length)
    (hwf : WFCol ((s.data.drop start).take (endv - start)) posts) :
    s.col i = some posts := by
  rw [SpriteRaw_col_eval s i start endv
    (by rw [Sprite_new_ca_length bytes s hnew]; exact hi) h2 h3 h4 h5]
  exact parseColumn_wf _ _ hwf

/-- Witness for C4 at a concrete valid sprite. -/
theorem sprite_col_valid_witness :
    Sprite.new testSpriteBytes =
      some ⟨1, 1, 0, 0, [12], 12, [0, 1, 1, 9, 0, 255]⟩ ∧
      SpriteRaw.col ⟨1, 1, 0, 0, [12], 12, [0, 1, 1, 9, 0, 255]⟩ 0 =
        some [Span.mk 0 [9]] := by
  refine ⟨by decide, ?_⟩
  exact sprite_col_valid testSpriteBytes
    ⟨1, 1, 0, 0, [12], 12, [0, 1, 1, 9, 0, 255]⟩ (by decide) 0
    (by decide) 0 6 [Span.mk 0 [9]] (by decide)
    (Or.inr ⟨by decide, by decide⟩) (by decide) (by decide)
    (WFCol.post 0 1 1 0 [9] [255] [] (by decide) (by decide)
      (WFCol.term []))

/-! ## C6: directory entries in `make_sprite` output -/
/-- C6 (counterexample): for a 1×1 canvas with an opaque pixel, the single
directory entry in the `make_sprite` output is 12 (absolute offset from
the start of the sprite bytes), while the column's starting offset
relative to the post-data region is 0. -/
theorem make_sprite_directory_relative_counterexample :
    SpriteCanvas.make_sprite ⟨1, 1, fun _ _ => 7, fun _ _ => true⟩ =
      some [1, 0, 1, 0, 0, 0, 0, 0, 12, 0, 0, 0, 0, 1, 1, 7, 0, 255] ∧
      readU32 [1, 0, 1, 0, 0, 0, 0, 0, 12, 0, 0, 0, 0, 1, 1, 7, 0, 255]
        (8 + 4 * 0) ≠ 0 := by
  constructor
  · rfl
  · decide

/-- C6 (amended): each directory entry equals the column's starting offset
relative to the post-data region (the data length pushed by the encoding
loop, `sumLens (blocks.take i)`) plus the combined header-and-directory
size `8 + 4·width` — i.e. it is absolute from the start of the sprite
byte sequence, not relative to the post-data region. -/
theorem make_sprite_directory_absolute (c : SpriteCanvas)
    (blocks : List (List Nat))
    (hb : (List.range c.width).mapM c.encodeColumn = some blocks)
    (hfit : 8 + 4 * c.width + sumLens blocks < 4294967296)
    (out : List Nat) (hout : c.make_sprite = some out)
    (i : Nat) (hi : i < c.width) :
    readU32 out (8 + 4 * i) =
      8 + 4 * c.width + sumLens (blocks.take i) := by
  have hout' : out = spriteOut c blocks := by
    have := SpriteCanvas.make_sprite_eq_out c blocks hb
    rw [hout] at this
    exact Option.some_inj.mp this
  subst hout'
  exact SpriteCanvas.make_sprite_dir_read c blocks hb hfit i hi

/-- Witness for the amended C6 at the concrete 1×1 canvas. -/
theorem make_sprite_directory_absolute_witness :
    readU32 [1, 0, 1, 0, 0, 0, 0, 0, 12, 0, 0, 0, 0, 1, 1, 7, 0, 255]
      (8 + 4 * 0) =
      8 + 4 * (SpriteCanvas.mk 1 1 (fun _ _ => 7) (fun _ _ => true)).width +
        sumLens ([[0, 1, 1, 7, 0, 255]].take 0) :=
  make_sprite_directory_absolute ⟨1, 1, fun _ _ => 7, fun _ _ => true⟩
    [[0, 1, 1, 7, 0, 255]] (by decide) (by decide) _ (by rfl) 0 (by decide)

namespace SpriteCanvas

/-! ## Round-trip support: drawing a sprite on a fresh canvas of its own
dimensions at its own hotspot -/
theorem new_width (w h : Nat) : (new w h).width = w := rfl

theorem new_height (w h : Nat) : (new w h).height = h := rfl

theorem new_pixels (w h x y : Nat) : (new w h).pixels x y = 0 := rfl

theorem new_mask (w h x y : Nat) : (new w h).mask x y = false := rfl

end SpriteCanvas

theorem drawSelf_width (S : Sprite) : (drawSelf S).width = S.width := by
  rw [drawSelf, SpriteCanvas.draw_patch_width, SpriteCanvas.new_width]

theorem drawSelf_height (S : Sprite) : (drawSelf S).height = S.height := by
  rw [drawSelf, SpriteCanvas.draw_patch_height, SpriteCanvas.new_height]

theorem patchHit_self (S : Sprite) (w h x y : Nat) :
    SpriteCanvas.patchHit (SpriteCanvas.new w h) S.left S.top S x y ↔
      (x < S.width ∧ x < w ∧ ∃ sp ∈ S.columns.getD x [],
        SpriteCanvas.inSpanRows h (sp.top : Int) sp.pixels.length y) := by
  unfold SpriteCanvas.patchHit
  rw [sub_self, sub_self]
  simp only [SpriteCanvas.new_width, SpriteCanvas.new_height, zero_add,
    sub_zero, Int.toNat_natCast]
  constructor
  · rintro ⟨h1, h2, h3, hex⟩
    exact ⟨by exact_mod_cast h2, h3, hex⟩
  · rintro ⟨h1, h2, hex⟩
    exact ⟨Int.natCast_nonneg x, by exact_mod_cast h1, h2, hex⟩

theorem drawSelf_mask_iff (S : Sprite) (x y : Nat) :
    ((drawSelf S).mask x y = true) ↔
      (x < S.width ∧ ∃ sp ∈ S.columns.getD x [],
        SpriteCanvas.inSpanRows S.height (sp.top : Int)
          sp.pixels.length y) := by
  rw [drawSelf, SpriteCanvas.draw_patch_mask_iff, patchHit_self]
  constructor
  · rintro (hfalse | ⟨h1, h2, hex⟩)
    · rw [SpriteCanvas.new_mask] at hfalse
      cases hfalse
    · exact ⟨h1, hex⟩
  · rintro ⟨h1, hex⟩
    exact Or.inr ⟨h1, h1, hex⟩

theorem drawSelf_pixels_untouched (S : Sprite) (x y : Nat)
    (h : ¬(x < S.width ∧ ∃ sp ∈ S.columns.getD x [],
      SpriteCanvas.inSpanRows S.height (sp.top : Int)
        sp.pixels.length y)) :
    (drawSelf S).pixels x y = 0 := by
  rw [drawSelf, SpriteCanvas.draw_patch_pixels_untouched, SpriteCanvas.new_pixels]
  rw [patchHit_self]
  rintro ⟨h1, h2, hex⟩
  exact h ⟨h1, hex⟩

theorem drawSelf_pixels_last (S : Sprite) (x y : Nat) (sp : Span)
    (l1 l2 : List Span) (hx : x < S.width)
    (hcols : S.columns.getD x [] = l1 ++ sp :: l2)
    (hcov : SpriteCanvas.inSpanRows S.height (sp.top : Int)
      sp.pixels.length y)
    (hl2 : ∀ sp' ∈ l2, ¬SpriteCanvas.inSpanRows S.height (sp'.top : Int)
      sp'.pixels.length y) :
    (drawSelf S).pixels x y =
      sp.pixels.getD ((y : Int) - sp.top).toNat 0 := by
  rw [drawSelf]
  have := SpriteCanvas.draw_patch_pixels_last (SpriteCanvas.new S.width
      S.height) S.left S.top S x y sp l1 l2
    (by rw [sub_self]; exact Int.natCast_nonneg x)
    (by rw [sub_self, zero_add]; exact_mod_cast hx)
    (by rw [SpriteCanvas.new_width]; exact hx)
    (by rw [sub_self, sub_zero, Int.toNat_natCast]; exact hcols)
    (by rw [sub_self, zero_add, SpriteCanvas.new_height]; exact hcov)
    (by
      intro sp' hm
      rw [sub_self, zero_add, SpriteCanvas.new_height]
      exact hl2 sp' hm)
  rw [this, sub_self, zero_add]

/-- Rows with a set mask bit after drawing a u8-well-formed sprite onto a
fresh canvas are below 509 (= 254 + 255). -/
theorem drawSelf_mask_row_lt (S : Sprite)
    (hwf : ∀ col ∈ S.columns, ∀ sp ∈ col,
      sp.top ≤ 254 ∧ sp.pixels.length ≤ 255)
    (x y : Nat) (h : (drawSelf S).mask x y = true) : y < 509 := by
  rw [drawSelf_mask_iff] at h
  obtain ⟨hx, sp, hm, hc⟩ := h
  have hcol : S.columns.getD x [] ∈ S.columns := by
    rw [List.getD_eq_getElem?_getD, List.getElem?_eq_getElem hx]
    exact List.getElem_mem _
  have hb := hwf _ hcol sp hm
  obtain ⟨h1, h2, h3⟩ := hc
  omega

/-- Every maximal mask run after drawing a u8-well-formed sprite onto a
fresh canvas starts at some span's top row, hence below 255. -/
theorem drawSelf_run_start (S : Sprite)
    (hwf : ∀ col ∈ S.columns, ∀ sp ∈ col,
      sp.top ≤ 254 ∧ sp.pixels.length ≤ 255)
    (x : Nat) :
    ∀ r ∈ find_spans ((drawSelf S).maskCol x), r.1 < 255 := by
  intro r hr
  obtain ⟨h1, h2, h3, h4, -⟩ := find_spans_mem _ r hr
  have hlen : ((drawSelf S).maskCol x).length = S.height := by
    rw [SpriteCanvas.maskCol_length, drawSelf_height]
  have hr1h : r.1 < S.height := by omega
  have hm1 : (drawSelf S).mask x r.1 = true := by
    have := h3 r.1 (le_refl _) h1
    rwa [SpriteCanvas.maskCol_getD _ _ _ (by rw [drawSelf_height]; omega)]
      at this
  rw [drawSelf_mask_iff] at hm1
  obtain ⟨hx, sp, hm, hc⟩ := hm1
  obtain ⟨hc1, hc2, hc3⟩ := hc
  have htop : sp.top = r.1 := by
    by_contra hne
    have hlt : sp.top < r.1 := by omega
    have hr1pos : 0 < r.1 := by omega
    have hprev : (drawSelf S).mask x (r.1 - 1) = true := by
      rw [drawSelf_mask_iff]
      exact ⟨hx, sp, hm, by omega, by omega, by omega⟩
    rcases h4 with h0 | hfalse
    · omega
    · rw [SpriteCanvas.maskCol_getD _ _ _
        (by rw [drawSelf_height]; omega)] at hfalse
      rw [hprev] at hfalse
      cases hfalse
  have hcol : S.columns.getD x [] ∈ S.columns := by
    rw [List.getD_eq_getElem?_getD, List.getElem?_eq_getElem hx]
    exact List.getElem_mem _
  have := hwf _ hcol sp hm
  omega

theorem sumLens_le (blocks : List (List Nat)) (K : Nat)
    (h : ∀ b ∈ blocks, b.length ≤ K) :
    sumLens blocks ≤ K * blocks.length := by
  induction blocks with
  | nil => simp [sumLens]
  | cons b bs ih =>
      have h1 := h b (List.mem_cons_self _ _)
      have h2 := ih fun q hq => h q (List.mem_cons_of_mem _ hq)
      rw [show sumLens (b :: bs) = b.length + sumLens bs by simp [sumLens]]
      rw [List.length_cons]
      have : K * (bs.length + 1) = K * bs.length + K := by ring
      omega

namespace SpriteCanvas

theorem planesPix_congr (c1 c2 : SpriteCanvas) (hW : c2.width = c1.width)
    (hH : c2.height = c1.height)
    (h : ∀ x y, x < c1.width → y < c1.height →
      c2.pixels x y = c1.pixels x y) :
    planesPix c2 = planesPix c1 := by
  unfold planesPix
  rw [hW, hH]
  refine List.map_congr_left fun x hx => ?_
  refine List.map_congr_left fun y hy => ?_
  exact h x y (List.mem_range.mp hx) (List.mem_range.mp hy)

theorem planesMask_congr (c1 c2 : SpriteCanvas) (hW : c2.width = c1.width)
    (hH : c2.height = c1.height)
    (h : ∀ x y, x < c1.width → y < c1.height → c2.mask x y = c1.mask x y) :
    planesMask c2 = planesMask c1 := by
  unfold planesMask
  rw [hW, hH]
  refine List.map_congr_left fun x hx => ?_
  refine List.map_congr_left fun y hy => ?_
  exact h x y (List.mem_range.mp hx) (List.mem_range.mp hy)

end SpriteCanvas

theorem roundSprite_height (S : Sprite) :
    (roundSprite S).height = (drawSelf S).height := rfl

theorem roundSprite_width (S : Sprite) :
    (roundSprite S).width = (drawSelf S).width := by
  rw [roundSprite, Sprite.width]
  rw [List.length_map, List.length_range]

theorem roundSprite_cols (S : Sprite) (x : Nat)
    (hx : x < (drawSelf S).width) :
    (roundSprite S).columns.getD x [] =
      (find_spans ((drawSelf S).maskCol x)).map fun r =>
        Span.mk r.1 ((drawSelf S).pixSlice x r.1 r.2) := by
  rw [roundSprite]
  exact getD_map_range _ _ _ _ hx

theorem roundSprite_mask (S : Sprite) (x y : Nat)
    (hx : x < (drawSelf S).width) (hy : y < (drawSelf S).height) :
    (drawSelf (roundSprite S)).mask x y = (drawSelf S).mask x y := by
  have hmcl : ((drawSelf S).maskCol x).length = (drawSelf S).height :=
    SpriteCanvas.maskCol_length _ _
  have hiff : ((drawSelf (roundSprite S)).mask x y = true) ↔
      ((drawSelf S).mask x y = true) := by
    rw [drawSelf_mask_iff]
    constructor
    · rintro ⟨-, sp, hsp, hcov⟩
      rw [roundSprite_cols S x hx] at hsp
      obtain ⟨r, hrmem, rfl⟩ := List.mem_map.mp hsp
      obtain ⟨hr1, hr2, hr3, -, -⟩ :=
        find_spans_mem ((drawSelf S).maskCol x) r hrmem
      obtain ⟨hc1, hc2, hc3⟩ := hcov
      rw [SpriteCanvas.pixSlice_length] at hc2
      have hyr : r.1 ≤ y ∧ y < r.2 := by
        constructor
        · exact_mod_cast hc1
        · have : (y : Int) < r.1 + (r.2 - r.1 : Nat) := hc2
          omega
      have := hr3 y hyr.1 hyr.2
      rwa [SpriteCanvas.maskCol_getD _ _ _ hy] at this
    · intro hm1
      have hy' : y < ((drawSelf S).maskCol x).length := by omega
      have hgd : ((drawSelf S).maskCol x).getD y false = true := by
        rw [SpriteCanvas.maskCol_getD _ _ _ hy]
        exact hm1
      obtain ⟨r, hrmem, hry⟩ :=
        find_spans_cover ((drawSelf S).maskCol x) y hy' hgd
      obtain ⟨hr1, hr2, -, -, -⟩ :=
        find_spans_mem ((drawSelf S).maskCol x) r hrmem
      refine ⟨by rw [roundSprite_width]; exact hx, ?_⟩
      rw [roundSprite_cols S x hx]
      refine ⟨Span.mk r.1 ((drawSelf S).pixSlice x r.1 r.2),
        List.mem_map_of_mem _ hrmem, ?_⟩
      refine ⟨by exact_mod_cast hry.1, ?_, ?_⟩
      · rw [SpriteCanvas.pixSlice_length]
        show (y : Int) < (r.1 : Nat) + ((r.2 - r.1 : Nat) : Int)
        omega
      · rw [roundSprite_height]
        omega
  cases h1 : (drawSelf (roundSprite S)).mask x y <;>
    cases h2 : (drawSelf S).mask x y <;> simp_all

theorem roundSprite_pixels (S : Sprite) (x y : Nat)
    (hx : x < (drawSelf S).width) (hy : y < (drawSelf S).height) :
    (drawSelf (roundSprite S)).pixels x y = (drawSelf S).pixels x y := by
  have hmcl : ((drawSelf S).maskCol x).length = (drawSelf S).height :=
    SpriteCanvas.maskCol_length _ _
  by_cases hm1 : (drawSelf S).mask x y = true
  · -- the row is covered by exactly one maximal run
    have hy' : y < ((drawSelf S).maskCol x).length := by omega
    have hgd : ((drawSelf S).maskCol x).getD y false = true := by
      rw [SpriteCanvas.maskCol_getD _ _ _ hy]
      exact hm1
    obtain ⟨r, hrmem, hry⟩ :=
      find_spans_cover ((drawSelf S).maskCol x) y hy' hgd
    obtain ⟨hr1, hr2, -, -, -⟩ :=
      find_spans_mem ((drawSelf S).maskCol x) r hrmem
    obtain ⟨ru1, ru2, hruns⟩ := List.append_of_mem hrmem
    have hpw := find_spans_pairwise ((drawSelf S).maskCol x)
    rw [hruns] at hpw
    have hpw2 : ∀ r' ∈ ru2, r.2 < r'.1 :=
      (List.pairwise_cons.mp
        (hpw.sublist (List.sublist_append_right ru1 (r :: ru2)))).1
    have hcols : (roundSprite S).columns.getD x [] =
        (ru1.map fun q => Span.mk q.1 ((drawSelf S).pixSlice x q.1 q.2)) ++
          Span.mk r.1 ((drawSelf S).pixSlice x r.1 r.2) ::
            (ru2.map fun q =>
              Span.mk q.1 ((drawSelf S).pixSlice x q.1 q.2)) := by
      rw [roundSprite_cols S x hx, hruns, List.map_append, List.map_cons]
    have hpx2 := drawSelf_pixels_last (roundSprite S) x y
      (Span.mk r.1 ((drawSelf S).pixSlice x r.1 r.2))
      (ru1.map fun q => Span.mk q.1 ((drawSelf S).pixSlice x q.1 q.2))
      (ru2.map fun q => Span.mk q.1 ((drawSelf S).pixSlice x q.1 q.2))
      (by rw [roundSprite_width]; exact hx) hcols
      (by
        refine ⟨by exact_mod_cast hry.1, ?_, ?_⟩
        · rw [SpriteCanvas.pixSlice_length]
          show (y : Int) < (r.1 : Nat) + ((r.2 - r.1 : Nat) : Int)
          omega
        · rw [roundSprite_height]
          omega)
      (by
        intro sp' hsp'
        obtain ⟨q, hq, rfl⟩ := List.mem_map.mp hsp'
        have hgap := hpw2 q hq
        rintro ⟨hq1, -, -⟩
        have : (q.1 : Int) ≤ y := hq1
        omega)
    rw [hpx2]
    rw [show ((y : Int) - (Span.mk r.1
      ((drawSelf S).pixSlice x r.1 r.2)).top).toNat = y - r.1 by
      show ((y : Int) - (r.1 : Nat)).toNat = y - r.1
      omega]
    show ((drawSelf S).pixSlice x r.1 r.2).getD (y - r.1) 0 = _
    rw [SpriteCanvas.pixSlice, getD_map_range _ _ _ _ (by omega)]
    rw [show r.1 + (y - r.1) = y by omega]
  · -- uncovered on both sides: fresh zero pixels
    have hm2 : ¬(drawSelf (roundSprite S)).mask x y = true := by
      rw [roundSprite_mask S x y hx hy]
      exact hm1
    have hp1 : (drawSelf S).pixels x y = 0 :=
      drawSelf_pixels_untouched S x y fun hcontra =>
        hm1 ((drawSelf_mask_iff S x y).mpr hcontra)
    have hp2 : (drawSelf (roundSprite S)).pixels x y = 0 :=
      drawSelf_pixels_untouched (roundSprite S) x y fun hcontra =>
        hm2 ((drawSelf_mask_iff (roundSprite S) x y).mpr hcontra)
    rw [hp1, hp2]

/-- C1: a qualified round-trip. The claim as stated fails — `make_sprite`
can abort by assertion on a composited run longer than 128 rows (see the
counterexample below) — but whenever the sprite's spans fit the u8 post
format (top ≤ 254, length ≤ 255), its dimensions fit u16, and `make_sprite`
succeeds on the stamped canvas, decoding the produced bytes yields a sprite
whose stamping onto a fresh canvas of the same size reproduces both the
pixel plane and the mask plane of the original stamped canvas. -/
theorem sprite_roundtrip (S : Sprite)
    (hwf : ∀ col ∈ S.columns, ∀ sp ∈ col,
      sp.top ≤ 254 ∧ sp.pixels.length ≤ 255)
    (hw : S.width < 65536) (hh : S.height < 65536)
    (out : List Nat) (hms : (drawSelf S).make_sprite = some out) :
    ∃ S2, decodeSprite out = some S2 ∧
      SpriteCanvas.planesPix (drawSelf S2) =
        SpriteCanvas.planesPix (drawSelf S) ∧
      SpriteCanvas.planesMask (drawSelf S2) =
        SpriteCanvas.planesMask (drawSelf S) := by
  obtain ⟨blocks, hb⟩ :=
    SpriteCanvas.make_sprite_some_blocks (drawSelf S) out hms
  have hcw : (drawSelf S).width = S.width := drawSelf_width S
  have hch : (drawSelf S).height = S.height := drawSelf_height S
  have hbl : blocks.length = (drawSelf S).width := by
    have := mapM_length _ _ _ hb
    rwa [List.length_range] at this
  have hblen : ∀ b ∈ blocks, b.length ≤ 2546 := by
    intro b hbmem
    obtain ⟨i, hi, hbi⟩ := List.getElem_of_mem hbmem
    have hgetD : blocks.getD i [] = b := by
      rw [List.getD_eq_getElem?_getD, List.getElem?_eq_getElem hi, hbi]
      rfl
    have hiw : i < (List.range (drawSelf S).width).length := by
      rw [List.length_range]
      omega
    have henc := mapM_getD_some _ _ _ hb i 0 [] hiw
    rw [range_getD _ _ _ (by omega), hgetD] at henc
    have := SpriteCanvas.encodeColumn_length_le (drawSelf S) i 509 b henc
      fun y hy => drawSelf_mask_row_lt S hwf i y hy
    omega
  have hfit : 8 + 4 * (drawSelf S).width + sumLens blocks < 4294967296 := by
    have h1 := sumLens_le blocks 2546 hblen
    rw [hbl] at h1
    omega
  have h255 : ∀ x, x < (drawSelf S).width →
      ∀ r ∈ find_spans ((drawSelf S).maskCol x), r.1 < 255 :=
    fun x _ => drawSelf_run_start S hwf x
  have hdec := SpriteCanvas.make_sprite_decodeSprite (drawSelf S) blocks hb
    (by omega) (by omega) hfit h255 out hms
  refine ⟨roundSprite S, hdec, ?_, ?_⟩
  · refine SpriteCanvas.planesPix_congr (drawSelf S)
      (drawSelf (roundSprite S)) ?_ ?_ ?_
    · rw [drawSelf_width, roundSprite_width]
    · rw [drawSelf_height, roundSprite_height]
    · exact fun x y hx hy => roundSprite_pixels S x y hx hy
  · refine SpriteCanvas.planesMask_congr (drawSelf S)
      (drawSelf (roundSprite S)) ?_ ?_ ?_
    · rw [drawSelf_width, roundSprite_width]
    · rw [drawSelf_height, roundSprite_height]
    · exact fun x y hx hy => roundSprite_mask S x y hx hy

set_option maxRecDepth 100000 in
/-- C1 counterexample: for the sprite with a single 129-pixel column,
re-encoding the stamped canvas does not produce any byte sequence — the
`assert!(span_len <= 128)` in `make_sprite` aborts — so the round-trip
property as universally stated fails. -/
theorem sprite_roundtrip_counterexample :
    SpriteCanvas.make_sprite
      (drawSelf (Sprite.mk 129 0 0 [[Span.mk 0 (List.replicate 129 5)]])) =
      none := by
  decide

/-- C1 witness: the round-trip theorem instantiated at a concrete 1×2
sprite with pixels 3 and 4, whose encoding is computed explicitly. -/
theorem sprite_roundtrip_witness :
    ∃ S2,
      decodeSprite [1, 0, 2, 0, 0, 0, 0, 0, 12, 0, 0, 0,
        0, 2, 2, 3, 4, 0, 255] = some S2 ∧
      SpriteCanvas.planesPix (drawSelf S2) =
        SpriteCanvas.planesPix
          (drawSelf (Sprite.mk 2 0 0 [[Span.mk 0 [3, 4]]])) ∧
      SpriteCanvas.planesMask (drawSelf S2) =
        SpriteCanvas.planesMask
          (drawSelf (Sprite.mk 2 0 0 [[Span.mk 0 [3, 4]]])) :=
  sprite_roundtrip (Sprite.mk 2 0 0 [[Span.mk 0 [3, 4]]])
    (by decide) (by decide) (by decide)
    [1, 0, 2, 0, 0, 0, 0, 0, 12, 0, 0, 0, 0, 2, 2, 3, 4, 0, 255]
    (by decide)
